import Mathlib

/-!
# The `azure` plugin's directive parser (`plugin/azure/setup.go`)

A shallow embedding of `parse` and a verification of the statements made about it.

Go strings are `String`; Go maps are association lists read through `GoMap.get?`
(a missing key reads as `none`) and written through `GoMap.set`; the error value
returned by `parse` is a `ParseError` that keeps the format string and its argument.
-/

set_option autoImplicit false

/-! ## Go maps -/

/-- A Go `map[string]V`: an association list with at most one entry per key. -/
abbrev GoMap (V : Type) := List (String × V)

namespace GoMap

/-- The lookup `m[k]` with its presence flag: `none` when the key is absent. -/
def get? {V : Type} : GoMap V → String → Option V
  | [], _ => none
  | (k, v) :: rest, key => if k = key then some v else get? rest key

/-- The assignment `m[k] = v`: overwrites the entry of `k`, or adds one. -/
def set {V : Type} : GoMap V → String → V → GoMap V
  | [], key, val => [(key, val)]
  | (k, v) :: rest, key, val =>
    if k = key then (key, val) :: rest else (k, v) :: set rest key val

end GoMap

/-! ## `strings.SplitN` -/

namespace strings

/-- The text before and after the first occurrence of `sep`
(`Index` followed by the two slices taken in `genSplit`). -/
def cut (sep : Char) : List Char → Option (List Char × List Char)
  | [] => none
  | c :: cs =>
    if c = sep then some ([], cs)
    else
      match cut sep cs with
      | none => none
      | some (a, b) => some (c :: a, b)

/-- The loop of `genSplit`: at most `k` cuts, the last piece is the unsplit remainder. -/
def genSplit (sep : Char) : Nat → List Char → List (List Char)
  | 0, s => [s]
  | k + 1, s =>
    match cut sep s with
    | none => [s]
    | some (a, rest) => a :: genSplit sep k rest

/-- The call `strings.SplitN(s, sep, n)` for a one-character separator and `n ≥ 0`. -/
def SplitN (s : String) (sep : Char) (n : Nat) : List String :=
  if n = 0 then [] else (genSplit sep (n - 1) s.data).map String.mk

end strings

/-! ## External collaborators of `parse` -/

namespace azurerest

/-- The cloud-environment descriptor `azure.Environment`, reduced to the fields `parse` reads. -/
structure Environment where
  Name : String
  ResourceManagerEndpoint : String
deriving DecidableEq, Repr

/-- The descriptor `azure.PublicCloud`. -/
def PublicCloud : Environment :=
  { Name := "AzurePublicCloud", ResourceManagerEndpoint := "https://management.azure.com/" }

end azurerest

namespace auth

/-- The key `auth.SubscriptionID`. -/
def SubscriptionID : String := "AZURE_SUBSCRIPTION_ID"

/-- The key `auth.TenantID`. -/
def TenantID : String := "AZURE_TENANT_ID"

/-- The key `auth.ClientID`. -/
def ClientID : String := "AZURE_CLIENT_ID"

/-- The key `auth.ClientSecret`. -/
def ClientSecret : String := "AZURE_CLIENT_SECRET"

/-- The key `auth.Resource`. -/
def Resource : String := "AZURE_AD_RESOURCE"

/-- The struct `auth.EnvironmentSettings`. -/
structure EnvironmentSettings where
  Values : GoMap String
  Environment : azurerest.Environment
deriving DecidableEq, Repr

end auth

namespace fall

/-- The struct `fall.F`: the zones for which a miss falls through. -/
structure F where
  Zones : List String
deriving DecidableEq, Repr

/-- Modelled from the spec: `plugin/pkg/fall` is not under src/. `SetZones` replaces the
zone list by the normalised names. -/
def F.SetZones (normalize : String → String) (_f : F) (zones : List String) : F :=
  { Zones := zones.map normalize }

/-- Modelled from the spec: `plugin/pkg/fall` is not under src/. The policy is built from the
arguments of the line; with no argument it falls through for all zones (the root zone). -/
def F.SetZonesFromArgs (normalize : String → String) (f : F) (zones : List String) : F :=
  if zones = [] then f.SetZones normalize ["."] else f.SetZones normalize zones

end fall

namespace azure

/-- The two library functions `parse` calls into: the cloud-environment resolver
`azurerest.EnvironmentFromName` (a descriptor, or the text of its error) and the zone-name
normalisation used by the fallthrough policy. -/
structure Collab where
  EnvironmentFromName : String → Except String azurerest.Environment
  Normalize : String → String

/-- The error value of `parse`: `c.Errf(format, arg)` or `c.ArgErr()` raised at token `val`. -/
inductive ParseError where
  | Errf (format : String) (arg : String)
  | ArgErr (val : String)
deriving DecidableEq, Repr

/-- One occurrence of the directive as the token cursor `caddy.Controller` walks it:
the arguments on the directive's line (`c.RemainingArgs()`) and the tokens of its block,
line by line (`c.NextBlock()`, `c.NextArg()`). The opening brace, and the closing brace
that `c.NextBlock()` reaches, delimit the block and are not tokens of it; a closing brace
that shares the line of a directive still taking arguments is handed out by `c.NextArg()`
and `c.RemainingArgs()` like any other token, and is then the last token of that line. -/
structure Stanza where
  args : List String
  block : List (List String)
deriving DecidableEq, Repr

/-- The local variables of `parse`. -/
structure ParseState where
  resourceGroupMapping : GoMap (List String)
  resourceGroupSet : GoMap Unit
  azureEnv : azurerest.Environment
  env : auth.EnvironmentSettings
  fall : fall.F
deriving DecidableEq, Repr

/-- The four values `parse` returns. -/
structure ParseResult where
  env : auth.EnvironmentSettings
  resourceGroupMapping : GoMap (List String)
  fall : fall.F
  err : Option ParseError
deriving DecidableEq, Repr

/-- A loop either runs to its end in a new state, or returns from `parse` with an error
and the state reached. -/
abbrev Step := Except (ParseState × ParseError) ParseState

/-- The variables as declared at the top of `parse` (lines 59-64). -/
def ParseState.init : ParseState :=
  { resourceGroupMapping := [],
    resourceGroupSet := [],
    azureEnv := azurerest.PublicCloud,
    env := { Values := [], Environment := { Name := "", ResourceManagerEndpoint := "" } },
    fall := { Zones := [] } }

/-- The assignment `env.Values[key] = val`. -/
def ParseState.setValue (st : ParseState) (key val : String) : ParseState :=
  { st with env := { st.env with Values := st.env.Values.set key val } }

/-- The two assignments that record an accepted claim (lines 82-83). -/
def ParseState.claim (st : ParseState) (resourceGroup zoneName access : String) : ParseState :=
  { st with
    resourceGroupSet := st.resourceGroupSet.set (resourceGroup ++ zoneName) (),
    resourceGroupMapping :=
      st.resourceGroupMapping.set resourceGroup
        (((st.resourceGroupMapping.get? resourceGroup).getD []) ++ [zoneName ++ ":" ++ access]) }

/-- The body of the loop over `args` (lines 70-83) for one argument. -/
def parseArg (st : ParseState) (arg : String) : Step :=
  match strings.SplitN arg ':' 3 with
  | [resourceGroup, zoneName, access] =>
    if resourceGroup = "" ∨ zoneName = "" ∨ (access ≠ "public" ∧ access ≠ "private") then
      .error (st, .Errf "invalid resource group/zone/access: %q" arg)
    else if (st.resourceGroupSet.get? (resourceGroup ++ zoneName)).isSome then
      .error (st, .Errf "conflicting zone: %q" arg)
    else
      .ok (st.claim resourceGroup zoneName access)
  | _ => .error (st, .Errf "invalid resource group/zone: %q" arg)

/-- The loop `for i := 0; i < len(args); i++` (lines 69-84). -/
def parseArgs : ParseState → List String → Step
  | st, [] => .ok st
  | st, arg :: rest =>
    match parseArg st arg with
    | .error e => .error e
    | .ok st1 => parseArgs st1 rest

/-- The loop `for c.NextBlock()` (lines 85-121) over the tokens of one line of the block:
the head is the keyword `c.Val()`, `c.NextArg()` takes the next token of the same line,
`c.RemainingArgs()` takes the rest of the line, and the next keyword is the token after
what was consumed. -/
def parseLine (h : Collab) : ParseState → List String → Step
  | st, [] => .ok st
  | st, kw :: rest =>
    if kw = "subscription" then
      match rest with
      | [] => .error (st, .ArgErr kw)
      | v :: more => parseLine h (st.setValue auth.SubscriptionID v) more
    else if kw = "tenant" then
      match rest with
      | [] => .error (st, .ArgErr kw)
      | v :: more => parseLine h (st.setValue auth.TenantID v) more
    else if kw = "client" then
      match rest with
      | [] => .error (st, .ArgErr kw)
      | v :: more => parseLine h (st.setValue auth.ClientID v) more
    else if kw = "secret" then
      match rest with
      | [] => .error (st, .ArgErr kw)
      | v :: more => parseLine h (st.setValue auth.ClientSecret v) more
    else if kw = "environment" then
      match rest with
      | [] => .error (st, .ArgErr kw)
      | v :: more =>
        match h.EnvironmentFromName v with
        | .error msg =>
          .error (st.setValue auth.ClientSecret v, .Errf "cannot set azure environment: %q" msg)
        | .ok e => parseLine h { st.setValue auth.ClientSecret v with azureEnv := e } more
    else if kw = "fallthrough" then
      .ok { st with fall := st.fall.SetZonesFromArgs h.Normalize rest }
    else
      .error (st, .Errf "unknown property: %q" kw)

/-- The loop `for c.NextBlock()` over all the lines of a block. -/
def parseBlock (h : Collab) : ParseState → List (List String) → Step
  | st, [] => .ok st
  | st, line :: rest =>
    match parseLine h st line with
    | .error e => .error e
    | .ok st1 => parseBlock h st1 rest

/-- One iteration of `for c.Next()` (lines 67-121): the arguments, then the block. -/
def parseStanza (h : Collab) (st : ParseState) (s : Stanza) : Step :=
  match parseArgs st s.args with
  | .error e => .error e
  | .ok st1 => parseBlock h st1 s.block

/-- The loop `for c.Next()` (lines 66-122). -/
def parseStanzas (h : Collab) : ParseState → List Stanza → Step
  | st, [] => .ok st
  | st, s :: rest =>
    match parseStanza h st s with
    | .error e => .error e
    | .ok st1 => parseStanzas h st1 rest

/-- The loop of `parse` run from the initial variables. -/
def run (h : Collab) (c : List Stanza) : Step :=
  parseStanzas h ParseState.init c

/-- The function `parse` (lines 58-128): an error return hands back the variables as
they stand; the normal return first stores the endpoint and the descriptor of the
selected environment (lines 124-125). -/
def parse (h : Collab) (c : List Stanza) : ParseResult :=
  match run h c with
  | .error (st, e) =>
    { env := st.env, resourceGroupMapping := st.resourceGroupMapping, fall := st.fall,
      err := some e }
  | .ok st =>
    { env := { Values := st.env.Values.set auth.Resource st.azureEnv.ResourceManagerEndpoint,
               Environment := st.azureEnv },
      resourceGroupMapping := st.resourceGroupMapping, fall := st.fall, err := none }

/-- A resolver that knows two environments by their exact names, and the identity
normalisation: a fixture for evaluating `parse` on concrete configurations. -/
def demo : Collab :=
  { EnvironmentFromName := fun name =>
      if name = "AzurePublicCloud" then .ok azurerest.PublicCloud
      else if name = "AzureChinaCloud" then
        .ok { Name := "AzureChinaCloud",
              ResourceManagerEndpoint := "https://management.chinacloudapi.cn/" }
      else .error ("autorest/azure: There is no cloud environment matching the name " ++ name),
    Normalize := fun z => z }

/-! ## Vocabulary of the specification -/

/-- The positional token written `rg:zone:access`. -/
def triplet (rg zone access : String) : String :=
  rg ++ ":" ++ zone ++ ":" ++ access

/-- The parts of a valid claim: no colon inside the resource group or the zone, both
non-empty, and the access class `public` or `private`. -/
def ValidClaim (rg zone access : String) : Prop :=
  ':' ∉ rg.data ∧ ':' ∉ zone.data ∧ rg ≠ "" ∧ zone ≠ "" ∧
    (access = "public" ∨ access = "private")

/-- The number of colons of a token: one less than its number of colon-separated parts. -/
def colons (t : String) : Nat :=
  t.data.count ':'

/-- All the positional tokens of a configuration, in the order of the input. -/
def allArgs (c : List Stanza) : List String :=
  c.flatMap Stanza.args

/-- A directive of a block: its keyword and the tokens it takes from its line. -/
abbrev Directive := String × List String

/-- The keywords that take one argument. -/
def singleArg : List String :=
  ["subscription", "tenant", "client", "secret", "environment"]

/-- The directives of one line of a block, as the grammar delimits them: a single-argument
keyword takes the next token of its line when there is one, `fallthrough` takes the rest
of the line, and any other token stands alone. -/
def lineDirectives : List String → List Directive
  | [] => []
  | kw :: rest =>
    if kw ∈ singleArg then
      match rest with
      | [] => [(kw, [])]
      | v :: more => (kw, [v]) :: lineDirectives more
    else if kw = "fallthrough" then [(kw, rest)]
    else (kw, []) :: lineDirectives rest

/-- All the directives of a configuration, in the order of the input. -/
def allDirectives (c : List Stanza) : List Directive :=
  c.flatMap (fun s => s.block.flatMap lineDirectives)

/-- The last directive of the list whose keyword is one of `kws`. -/
def lastDirective (kws : List String) (ds : List Directive) : Option Directive :=
  (ds.filter (fun d => d.1 ∈ kws)).getLast?

/-- The argument of the last directive of the list whose keyword is one of `kws`. -/
def lastArg (kws : List String) (ds : List Directive) : Option String :=
  (lastDirective kws ds).bind (fun d => d.2.head?)

/-- The keywords `kws` are those whose branch of the switch in `parse` assigns
`env.Values[key]` (lines 91, 96, 101, 106, 111). -/
def Assigns (kws : List String) (key : String) : Prop :=
  ("subscription" ∈ kws ↔ auth.SubscriptionID = key) ∧ ("tenant" ∈ kws ↔ auth.TenantID = key) ∧
    ("client" ∈ kws ↔ auth.ClientID = key) ∧ ("secret" ∈ kws ↔ auth.ClientSecret = key) ∧
    ("environment" ∈ kws ↔ auth.ClientSecret = key) ∧ "fallthrough" ∉ kws

/-- A directive that the grammar accepts: a single-argument keyword with its argument (for
`environment`, a name the resolver knows), or `fallthrough` with any arguments. -/
def ValidDirective (h : Collab) (d : Directive) : Prop :=
  (d.1 ∈ singleArg ∧ ∃ v, d.2 = [v] ∧
      (d.1 = "environment" → ∃ e, h.EnvironmentFromName v = .ok e)) ∨
    d.1 = "fallthrough"

/-- A claim of the specification: resource group, zone name and access class. -/
abbrev Claim := String × String × String

/-- The positional token of a claim. -/
def Claim.token (cl : Claim) : String :=
  triplet cl.1 cl.2.1 cl.2.2

/-- The key under which the uniqueness set of `parse` records a claim (line 82). -/
def Claim.key (cl : Claim) : String :=
  cl.1 ++ cl.2.1

/-- The zone ownership of a resource group in a list of claims: the strings `zone:access`
of its claims, in the order of the list; nothing when it has no claim. -/
def owned (claims : List Claim) (rg : String) : Option (List String) :=
  match (claims.filter (fun cl => cl.1 = rg)).map (fun cl => cl.2.1 ++ ":" ++ cl.2.2) with
  | [] => none
  | e :: es => some (e :: es)

/-- The stanza with the tokens of the given claims and the given block. -/
def claimStanza (s : List Claim × List (List String)) : Stanza :=
  { args := s.1.map Claim.token, block := s.2 }

/-- All the claims of a configuration given by the claims and the block of each stanza. -/
def claimsOf (cfg : List (List Claim × List (List String))) : List Claim :=
  cfg.flatMap (fun s => s.1)

/-- An item of the input, in the order in which it is read: a positional token, or a
directive of a block. -/
inductive Item where
  | claim (token : String)
  | directive (d : Directive)
deriving DecidableEq, Repr

/-- The items of a stanza: its positional tokens, then the directives of its block. -/
def stanzaItems (s : Stanza) : List Item :=
  s.args.map Item.claim ++ (s.block.flatMap lineDirectives).map Item.directive

/-- The items of a configuration: those of its stanzas, in order. -/
def items (c : List Stanza) : List Item :=
  c.flatMap stanzaItems

/-- The positional tokens among a list of items. -/
def claimsIn : List Item → List String
  | [] => []
  | Item.claim t :: rest => t :: claimsIn rest
  | Item.directive _ :: rest => claimsIn rest

/-- The uniqueness key of an accepted positional token: its first part followed by its
second part. -/
def tokenKey (t : String) : String :=
  match strings.SplitN t ':' 3 with
  | [rg, zone, _] => rg ++ zone
  | _ => ""

/-- The violation of a positional token that comes after the accepted tokens `seen`, in
the order of the error taxonomy: it does not split in three parts (`MalformedClaim`), a
part is invalid (`InvalidClaim`), or its key is the key of an earlier token
(`DuplicateZone`). -/
def claimError (seen : List String) (t : String) : Option ParseError :=
  match strings.SplitN t ':' 3 with
  | [rg, zone, access] =>
    if rg = "" ∨ zone = "" ∨ (access ≠ "public" ∧ access ≠ "private") then
      some (.Errf "invalid resource group/zone/access: %q" t)
    else if rg ++ zone ∈ seen.map tokenKey then
      some (.Errf "conflicting zone: %q" t)
    else none
  | _ => some (.Errf "invalid resource group/zone: %q" t)

/-- The violation of a directive: a single-argument keyword without argument
(`MissingArgument`), an `environment` name the resolver rejects (`UnknownEnvironment`), or
a keyword that is not recognised (`UnknownDirective`). -/
def directiveError (h : Collab) (d : Directive) : Option ParseError :=
  if d.1 ∈ singleArg then
    match d.2 with
    | [] => some (.ArgErr d.1)
    | v :: _ =>
      if d.1 = "environment" then
        match h.EnvironmentFromName v with
        | .error msg => some (.Errf "cannot set azure environment: %q" msg)
        | .ok _ => none
      else none
  else if d.1 = "fallthrough" then none
  else some (.Errf "unknown property: %q" d.1)

/-- The error of the first violating item of the list, the positional tokens `seen` having
been accepted before it; nothing when no item violates. -/
def firstError (h : Collab) : List String → List Item → Option ParseError
  | _, [] => none
  | seen, Item.claim t :: rest =>
    match claimError seen t with
    | some e => some e
    | none => firstError h (seen ++ [t]) rest
  | seen, Item.directive d :: rest =>
    match directiveError h d with
    | some e => some e
    | none => firstError h seen rest

/-- The error a loop returns with, if it does. -/
def errOf : Step → Option ParseError
  | .error (_, e) => some e
  | .ok _ => none

/-- The loop over a block, directive by directive: each directive is run as a line of
its own. -/
def parseDirectives (h : Collab) : ParseState → List Directive → Step
  | st, [] => .ok st
  | st, d :: ds =>
    match parseLine h st (d.1 :: d.2) with
    | .error e => .error e
    | .ok st1 => parseDirectives h st1 ds

end azure

/-! ## Lemmas on maps and on splitting -/

namespace GoMap

theorem get?_set_self {V : Type} (m : GoMap V) (k : String) (v : V) :
    (m.set k v).get? k = some v := by
  induction m with
  | nil => simp [set, get?]
  | cons p rest ih =>
    obtain ⟨k1, v1⟩ := p
    by_cases hk : k1 = k
    · simp [set, get?, hk]
    · simp [set, get?, hk, ih]

theorem get?_set_ne {V : Type} (m : GoMap V) (k j : String) (v : V) (hne : k ≠ j) :
    (m.set k v).get? j = m.get? j := by
  induction m with
  | nil => simp [set, get?, hne]
  | cons p rest ih =>
    obtain ⟨k1, v1⟩ := p
    by_cases hk : k1 = k
    · subst hk
      simp [set, get?, hne]
    · by_cases hj : k1 = j
      · subst hj
        simp [set, get?, hk]
      · simp [set, get?, hk, hj, ih]

end GoMap

namespace strings

theorem cut_eq_none {sep : Char} {s : List Char} (hs : sep ∉ s) : cut sep s = none := by
  induction s with
  | nil => rfl
  | cons c cs ih =>
    have hc : c ≠ sep := fun e => hs (by simp [e])
    have hcs : sep ∉ cs := fun e => hs (by simp [e])
    simp [cut, hc, ih hcs]

theorem cut_append {sep : Char} {a : List Char} (b : List Char) (ha : sep ∉ a) :
    cut sep (a ++ sep :: b) = some (a, b) := by
  induction a with
  | nil => simp [cut]
  | cons c cs ih =>
    have hc : c ≠ sep := fun e => ha (by simp [e])
    have hcs : sep ∉ cs := fun e => ha (by simp [e])
    simp [cut, hc, ih hcs]

theorem cut_some {sep : Char} {s a b : List Char} (hcut : cut sep s = some (a, b)) :
    s = a ++ sep :: b ∧ sep ∉ a := by
  induction s generalizing a with
  | nil => simp [cut] at hcut
  | cons c cs ih =>
    by_cases hc : c = sep
    · simp [cut, hc] at hcut
      obtain ⟨h1, h2⟩ := hcut
      subst h1 h2
      simp [hc]
    · simp only [cut, hc, if_false] at hcut
      cases hrec : cut sep cs with
      | none => simp [hrec] at hcut
      | some p =>
        obtain ⟨a1, b1⟩ := p
        simp [hrec] at hcut
        obtain ⟨h1, h2⟩ := hcut
        subst h1 h2
        obtain ⟨e1, e2⟩ := ih hrec
        refine ⟨by simp [e1], ?_⟩
        intro hmem
        rcases List.mem_cons.mp hmem with h | h
        · exact hc h.symm
        · exact e2 h

theorem cut_none {sep : Char} {s : List Char} (hcut : cut sep s = none) : sep ∉ s := by
  induction s with
  | nil => simp
  | cons c cs ih =>
    by_cases hc : c = sep
    · simp [cut, hc] at hcut
    · simp only [cut, hc, if_false] at hcut
      cases hrec : cut sep cs with
      | none =>
        intro hmem
        rcases List.mem_cons.mp hmem with h | h
        · exact hc h.symm
        · exact ih hrec h
      | some p =>
        obtain ⟨a1, b1⟩ := p
        simp [hrec] at hcut

/-- A token `rg:zone:access` whose first two parts hold no colon splits into these parts. -/
theorem SplitN_triplet (rg zone access : String) (hrg : ':' ∉ rg.data)
    (hzone : ':' ∉ zone.data) :
    SplitN (azure.triplet rg zone access) ':' 3 = [rg, zone, access] := by
  have hdata : (azure.triplet rg zone access).data
      = rg.data ++ ':' :: (zone.data ++ ':' :: access.data) := by
    simp [azure.triplet, String.data_append]
  simp [SplitN, hdata, genSplit, cut_append _ hrg, cut_append _ hzone]

end strings

namespace azure

/-! ## The loops of `parse`, piece by piece -/

theorem parseArg_of_split {st : ParseState} {t rg zone access : String}
    (hsplit : strings.SplitN t ':' 3 = [rg, zone, access]) :
    parseArg st t =
      if rg = "" ∨ zone = "" ∨ (access ≠ "public" ∧ access ≠ "private") then
        .error (st, .Errf "invalid resource group/zone/access: %q" t)
      else if (st.resourceGroupSet.get? (rg ++ zone)).isSome then
        .error (st, .Errf "conflicting zone: %q" t)
      else .ok (st.claim rg zone access) := by
  simp only [parseArg, hsplit]

theorem parseArg_ok {st st1 : ParseState} {t : String} (hok : parseArg st t = .ok st1) :
    ∃ rg zone access, strings.SplitN t ':' 3 = [rg, zone, access] ∧ rg ≠ "" ∧ zone ≠ "" ∧
      (access = "public" ∨ access = "private") ∧
      st.resourceGroupSet.get? (rg ++ zone) = none ∧ st1 = st.claim rg zone access := by
  unfold parseArg at hok
  split at hok
  · rename_i rg zone access hsplit
    refine ⟨rg, zone, access, hsplit, ?_⟩
    split_ifs at hok with h1 h2
    · simp only [not_or, not_and_or, not_not] at h1
      simp only [Bool.not_eq_true, Option.not_isSome, Option.isNone_iff_eq_none] at h2
      refine ⟨h1.1, h1.2.1, h1.2.2, h2, ?_⟩
      injection hok with hst
      exact hst.symm
  · cases hok

theorem parseArg_error_state {st st1 : ParseState} {t : String} {e : ParseError}
    (herr : parseArg st t = .error (st1, e)) : st1 = st := by
  unfold parseArg at herr
  split at herr
  · split_ifs at herr <;> injection herr with hp <;> injection hp with h1 _ <;> exact h1.symm
  · injection herr with hp
    injection hp with h1 _
    exact h1.symm

theorem parseArgs_append_ok {st st1 : ParseState} {a : List String} (b : List String)
    (hok : parseArgs st a = .ok st1) : parseArgs st (a ++ b) = parseArgs st1 b := by
  induction a generalizing st with
  | nil =>
    simp only [parseArgs] at hok
    injection hok with hst
    simp [hst]
  | cons t rest ih =>
    simp only [parseArgs, List.cons_append] at hok ⊢
    cases hstep : parseArg st t with
    | error e => simp [hstep] at hok
    | ok st2 =>
      simp only [hstep] at hok ⊢
      exact ih hok

theorem parseBlock_append_ok {h : Collab} {st st1 : ParseState} {a : List (List String)}
    (b : List (List String)) (hok : parseBlock h st a = .ok st1) :
    parseBlock h st (a ++ b) = parseBlock h st1 b := by
  induction a generalizing st with
  | nil =>
    simp only [parseBlock] at hok
    injection hok with hst
    simp [hst]
  | cons t rest ih =>
    simp only [parseBlock, List.cons_append] at hok ⊢
    cases hstep : parseLine h st t with
    | error e => simp [hstep] at hok
    | ok st2 =>
      simp only [hstep] at hok ⊢
      exact ih hok

theorem parseStanzas_append_ok {h : Collab} {st st1 : ParseState} {a : List Stanza}
    (b : List Stanza) (hok : parseStanzas h st a = .ok st1) :
    parseStanzas h st (a ++ b) = parseStanzas h st1 b := by
  induction a generalizing st with
  | nil =>
    simp only [parseStanzas] at hok
    injection hok with hst
    simp [hst]
  | cons t rest ih =>
    simp only [parseStanzas, List.cons_append] at hok ⊢
    cases hstep : parseStanza h st t with
    | error e => simp [hstep] at hok
    | ok st2 =>
      simp only [hstep] at hok ⊢
      exact ih hok

/-- A successful run over `a ++ b` is a successful run over `a` followed by one over `b`. -/
theorem parseStanzas_append_inv {h : Collab} {st st2 : ParseState} {a b : List Stanza}
    (hok : parseStanzas h st (a ++ b) = .ok st2) :
    ∃ st1, parseStanzas h st a = .ok st1 ∧ parseStanzas h st1 b = .ok st2 := by
  induction a generalizing st with
  | nil => exact ⟨st, rfl, by simpa using hok⟩
  | cons t rest ih =>
    simp only [parseStanzas, List.cons_append] at hok ⊢
    cases hstep : parseStanza h st t with
    | error e => simp [hstep] at hok
    | ok st3 =>
      simp only [hstep] at hok ⊢
      exact ih hok

theorem parseArgs_append_inv {st st2 : ParseState} {a b : List String}
    (hok : parseArgs st (a ++ b) = .ok st2) :
    ∃ st1, parseArgs st a = .ok st1 ∧ parseArgs st1 b = .ok st2 := by
  induction a generalizing st with
  | nil => exact ⟨st, rfl, by simpa using hok⟩
  | cons t rest ih =>
    simp only [parseArgs, List.cons_append] at hok ⊢
    cases hstep : parseArg st t with
    | error e => simp [hstep] at hok
    | ok st3 =>
      simp only [hstep] at hok ⊢
      exact ih hok

theorem parseBlock_append_inv {h : Collab} {st st2 : ParseState} {a b : List (List String)}
    (hok : parseBlock h st (a ++ b) = .ok st2) :
    ∃ st1, parseBlock h st a = .ok st1 ∧ parseBlock h st1 b = .ok st2 := by
  induction a generalizing st with
  | nil => exact ⟨st, rfl, by simpa using hok⟩
  | cons t rest ih =>
    simp only [parseBlock, List.cons_append] at hok ⊢
    cases hstep : parseLine h st t with
    | error e => simp [hstep] at hok
    | ok st3 =>
      simp only [hstep] at hok ⊢
      exact ih hok

/-- The state in which the cursor stands before the positional token that follows
`args1` in the stanza after `pre`. -/
theorem run_before_arg {h : Collab} {pre : List Stanza} {args1 : List String}
    {st : ParseState} (hrun : run h (pre ++ [⟨args1, []⟩]) = .ok st) :
    ∃ st0, parseStanzas h ParseState.init pre = .ok st0 ∧ parseArgs st0 args1 = .ok st := by
  obtain ⟨st0, h0, h1⟩ := parseStanzas_append_inv hrun
  refine ⟨st0, h0, ?_⟩
  simp only [parseStanzas, parseStanza] at h1
  cases hargs : parseArgs st0 args1 with
  | error e => simp [hargs] at h1
  | ok st1 =>
    simp only [hargs, parseBlock] at h1
    injection h1 with h2
    rw [h2]

/-- An error raised by a positional token is the result of `parse`, whatever follows. -/
theorem run_arg_error {h : Collab} {pre : List Stanza} {args1 : List String}
    {st : ParseState} (hrun : run h (pre ++ [⟨args1, []⟩]) = .ok st)
    {t : String} {e : ParseState × ParseError} (herr : parseArg st t = .error e)
    (args2 : List String) (block : List (List String)) (post : List Stanza) :
    run h (pre ++ ⟨args1 ++ t :: args2, block⟩ :: post) = .error e := by
  obtain ⟨st0, h0, h1⟩ := run_before_arg hrun
  unfold run
  rw [parseStanzas_append_ok _ h0]
  simp only [parseStanzas, parseStanza]
  rw [parseArgs_append_ok _ h1]
  simp only [parseArgs, herr]

/-- The state in which the cursor stands before the line that follows `block1`. -/
theorem run_before_line {h : Collab} {pre : List Stanza} {args : List String}
    {block1 : List (List String)} {st : ParseState}
    (hrun : run h (pre ++ [⟨args, block1⟩]) = .ok st) :
    ∃ st0 st1, parseStanzas h ParseState.init pre = .ok st0 ∧ parseArgs st0 args = .ok st1 ∧
      parseBlock h st1 block1 = .ok st := by
  obtain ⟨st0, h0, h1⟩ := parseStanzas_append_inv hrun
  refine ⟨st0, ?_⟩
  simp only [parseStanzas, parseStanza] at h1
  cases hargs : parseArgs st0 args with
  | error e => simp [hargs] at h1
  | ok st1 =>
    simp only [hargs] at h1
    cases hblock : parseBlock h st1 block1 with
    | error e => simp [hblock] at h1
    | ok st2 =>
      simp only [hblock] at h1
      injection h1 with h2
      exact ⟨st1, h0, rfl, by rw [hblock, h2]⟩

/-- An error raised on a line of a block is the result of `parse`, whatever follows. -/
theorem run_line_error {h : Collab} {pre : List Stanza} {args : List String}
    {block1 : List (List String)} {st : ParseState}
    (hrun : run h (pre ++ [⟨args, block1⟩]) = .ok st)
    {line : List String} {e : ParseState × ParseError} (herr : parseLine h st line = .error e)
    (block2 : List (List String)) (post : List Stanza) :
    run h (pre ++ ⟨args, block1 ++ line :: block2⟩ :: post) = .error e := by
  obtain ⟨st0, st1, h0, h1, h2⟩ := run_before_line hrun
  unfold run
  rw [parseStanzas_append_ok _ h0]
  simp only [parseStanzas, parseStanza, h1]
  rw [parseBlock_append_ok _ h2]
  simp only [parseBlock, herr]

theorem parse_of_run_error {h : Collab} {c : List Stanza} {st : ParseState} {e : ParseError}
    (hrun : run h c = .error (st, e)) :
    parse h c = { env := st.env, resourceGroupMapping := st.resourceGroupMapping,
                  fall := st.fall, err := some e } := by
  simp only [parse, hrun]

theorem parse_of_run_ok {h : Collab} {c : List Stanza} {st : ParseState}
    (hrun : run h c = .ok st) :
    parse h c =
      { env := { Values := st.env.Values.set auth.Resource st.azureEnv.ResourceManagerEndpoint,
                 Environment := st.azureEnv },
        resourceGroupMapping := st.resourceGroupMapping, fall := st.fall, err := none } := by
  simp only [parse, hrun]

theorem run_ok_of_parse {h : Collab} {c : List Stanza} (hok : (parse h c).err = none) :
    ∃ st, run h c = .ok st := by
  unfold parse at hok
  cases hrun : run h c with
  | error e => simp [hrun] at hok
  | ok st => exact ⟨st, rfl⟩

end azure

namespace azure

/-! ## A block, directive by directive -/

theorem parseDirectives_append_ok {h : Collab} {st st1 : ParseState} {a : List Directive}
    (b : List Directive) (hok : parseDirectives h st a = .ok st1) :
    parseDirectives h st (a ++ b) = parseDirectives h st1 b := by
  induction a generalizing st with
  | nil =>
    simp only [parseDirectives] at hok
    injection hok with hst
    simp [hst]
  | cons t rest ih =>
    simp only [parseDirectives, List.cons_append] at hok ⊢
    cases hstep : parseLine h st (t.1 :: t.2) with
    | error e => simp [hstep] at hok
    | ok st2 =>
      simp only [hstep] at hok ⊢
      exact ih hok

theorem parseDirectives_append_error {h : Collab} {st : ParseState} {a : List Directive}
    (b : List Directive) {e : ParseState × ParseError}
    (herr : parseDirectives h st a = .error e) :
    parseDirectives h st (a ++ b) = .error e := by
  induction a generalizing st with
  | nil => simp [parseDirectives] at herr
  | cons t rest ih =>
    simp only [parseDirectives, List.cons_append] at herr ⊢
    cases hstep : parseLine h st (t.1 :: t.2) with
    | error e1 =>
      simp only [hstep] at herr ⊢
      exact herr
    | ok st2 =>
      simp only [hstep] at herr ⊢
      exact ih herr

/-- Running a line is running its directives one after the other. -/
theorem parseLine_eq_directives (h : Collab) (st : ParseState) (line : List String) :
    parseLine h st line = parseDirectives h st (lineDirectives line) := by
  induction st, line using parseLine.induct h with
  | case1 st => simp [parseLine, lineDirectives, parseDirectives]
  | case2 st => simp [parseLine, lineDirectives, parseDirectives, singleArg]
  | case3 st v more ih =>
    simp [parseLine, lineDirectives, parseDirectives, singleArg, ih]
  | case4 st _ => simp [parseLine, lineDirectives, parseDirectives, singleArg]
  | case5 st v more _ ih =>
    simp [parseLine, lineDirectives, parseDirectives, singleArg, ih]
  | case6 st _ _ => simp [parseLine, lineDirectives, parseDirectives, singleArg]
  | case7 st v more _ _ ih =>
    simp [parseLine, lineDirectives, parseDirectives, singleArg, ih]
  | case8 st _ _ _ => simp [parseLine, lineDirectives, parseDirectives, singleArg]
  | case9 st v more _ _ _ ih =>
    simp [parseLine, lineDirectives, parseDirectives, singleArg, ih]
  | case10 st _ _ _ _ => simp [parseLine, lineDirectives, parseDirectives, singleArg]
  | case11 st v more msg hres _ _ _ _ =>
    simp [parseLine, lineDirectives, parseDirectives, singleArg, hres]
  | case12 st v more e hres _ _ _ _ ih =>
    simp [parseLine, lineDirectives, parseDirectives, singleArg, hres, ih]
  | case13 st rest _ _ _ _ _ =>
    cases rest <;> simp [parseLine, lineDirectives, parseDirectives, singleArg]
  | case14 st arg rest h1 h2 h3 h4 h5 h6 =>
    cases rest <;>
      simp [parseLine, lineDirectives, parseDirectives, singleArg, h1, h2, h3, h4, h5, h6]

/-- Running a block is running the directives of its lines one after the other. -/
theorem parseBlock_eq_directives (h : Collab) (st : ParseState) (block : List (List String)) :
    parseBlock h st block = parseDirectives h st (block.flatMap lineDirectives) := by
  induction block generalizing st with
  | nil => simp [parseBlock, parseDirectives]
  | cons line rest ih =>
    simp only [parseBlock, List.flatMap_cons]
    rw [parseLine_eq_directives]
    cases hline : parseDirectives h st (lineDirectives line) with
    | error e => simp [parseDirectives_append_error _ hline]
    | ok st1 => simp [parseDirectives_append_ok _ hline, ih]

/-- A single-argument keyword is given at most one token by `lineDirectives`. -/
theorem lineDirectives_shape (line : List String) :
    ∀ d ∈ lineDirectives line, d.1 ∈ singleArg → d.2.length ≤ 1 := by
  induction line using lineDirectives.induct with
  | case1 => simp [lineDirectives]
  | case2 kw hkw => simp [lineDirectives, hkw]
  | case3 kw hkw v more ih =>
    intro d hd
    simp only [lineDirectives, hkw, if_true, List.mem_cons] at hd
    rcases hd with hd | hd
    · subst hd
      simp
    · exact ih d hd
  | case4 rest hkw =>
    intro d hd hsingle
    cases rest <;> simp [lineDirectives, singleArg] at hd <;> subst hd <;>
      simp [singleArg] at hsingle
  | case5 kw rest hkw hfall ih =>
    intro d hd
    have hd1 : d = (kw, []) ∨ d ∈ lineDirectives rest := by
      cases rest <;> simpa [lineDirectives, hkw, hfall] using hd
    rcases hd1 with hd1 | hd1
    · subst hd1
      simp
    · exact ih d hd1

theorem allDirectives_shape (c : List Stanza) :
    ∀ d ∈ allDirectives c, d.1 ∈ singleArg → d.2.length ≤ 1 := by
  intro d hd
  simp only [allDirectives, List.mem_flatMap] at hd
  obtain ⟨s, _, line, _, hline⟩ := hd
  exact lineDirectives_shape line d hline

end azure

namespace azure

/-! ## What a successful run maintains -/

/-- What a directive that does not fail does to the variables. -/
theorem parseDirective_ok {h : Collab} {st st1 : ParseState} {d : Directive}
    (hshape : d.1 ∈ singleArg → d.2.length ≤ 1)
    (hok : parseLine h st (d.1 :: d.2) = .ok st1) :
    (∃ v, d = ("subscription", [v]) ∧ st1 = st.setValue auth.SubscriptionID v) ∨
    (∃ v, d = ("tenant", [v]) ∧ st1 = st.setValue auth.TenantID v) ∨
    (∃ v, d = ("client", [v]) ∧ st1 = st.setValue auth.ClientID v) ∨
    (∃ v, d = ("secret", [v]) ∧ st1 = st.setValue auth.ClientSecret v) ∨
    (∃ v e, d = ("environment", [v]) ∧ h.EnvironmentFromName v = .ok e ∧
      st1 = { st.setValue auth.ClientSecret v with azureEnv := e }) ∨
    (d.1 = "fallthrough" ∧
      st1 = { st with fall := st.fall.SetZonesFromArgs h.Normalize d.2 }) := by
  obtain ⟨kw, args⟩ := d
  simp only at hshape hok ⊢
  by_cases h1 : kw = "subscription"
  · subst h1
    have hlen := hshape (by simp [singleArg])
    match args, hlen, hok with
    | [], _, hok => simp [parseLine] at hok
    | [v], _, hok =>
      simp only [parseLine, if_true] at hok
      injection hok with hst
      exact Or.inl ⟨v, rfl, hst.symm⟩
    | _ :: _ :: _, hlen, _ => simp at hlen
  by_cases h2 : kw = "tenant"
  · subst h2
    have hlen := hshape (by simp [singleArg])
    match args, hlen, hok with
    | [], _, hok => simp [parseLine] at hok
    | [v], _, hok =>
      simp [parseLine] at hok
      exact Or.inr (Or.inl ⟨v, rfl, hok.symm⟩)
    | _ :: _ :: _, hlen, _ => simp at hlen
  by_cases h3 : kw = "client"
  · subst h3
    have hlen := hshape (by simp [singleArg])
    match args, hlen, hok with
    | [], _, hok => simp [parseLine] at hok
    | [v], _, hok =>
      simp [parseLine] at hok
      exact Or.inr (Or.inr (Or.inl ⟨v, rfl, hok.symm⟩))
    | _ :: _ :: _, hlen, _ => simp at hlen
  by_cases h4 : kw = "secret"
  · subst h4
    have hlen := hshape (by simp [singleArg])
    match args, hlen, hok with
    | [], _, hok => simp [parseLine] at hok
    | [v], _, hok =>
      simp [parseLine] at hok
      exact Or.inr (Or.inr (Or.inr (Or.inl ⟨v, rfl, hok.symm⟩)))
    | _ :: _ :: _, hlen, _ => simp at hlen
  by_cases h5 : kw = "environment"
  · subst h5
    have hlen := hshape (by simp [singleArg])
    match args, hlen, hok with
    | [], _, hok => simp [parseLine] at hok
    | [v], _, hok =>
      cases hres : h.EnvironmentFromName v with
      | error msg => simp [parseLine, hres] at hok
      | ok e =>
        simp [parseLine, hres] at hok
        exact Or.inr (Or.inr (Or.inr (Or.inr (Or.inl ⟨v, e, rfl, hres, hok.symm⟩))))
    | _ :: _ :: _, hlen, _ => simp at hlen
  by_cases h6 : kw = "fallthrough"
  · subst h6
    have hst : st1 = { st with fall := st.fall.SetZonesFromArgs h.Normalize args } := by
      cases args <;> simp [parseLine] at hok <;> exact hok.symm
    exact Or.inr (Or.inr (Or.inr (Or.inr (Or.inr ⟨rfl, hst⟩))))
  · exfalso
    cases args <;> simp [parseLine, h1, h2, h3, h4, h5, h6] at hok

/-- A property of the variables, of the positional tokens read so far and of the directives
run so far that every accepted token and every successful directive maintains holds at
the end of a successful loop. -/
theorem parseStanzas_invariant (h : Collab)
    (I : ParseState → List String → List Directive → Prop)
    (harg : ∀ st st1 t seen ds, I st seen ds → parseArg st t = .ok st1 → I st1 (seen ++ [t]) ds)
    (hdir : ∀ st st1 d seen ds, (d.1 ∈ singleArg → d.2.length ≤ 1) → I st seen ds →
      parseLine h st (d.1 :: d.2) = .ok st1 → I st1 seen (ds ++ [d])) :
    ∀ (c : List Stanza) (st st1 : ParseState) (seen : List String) (ds : List Directive),
      I st seen ds → parseStanzas h st c = .ok st1 →
        I st1 (seen ++ allArgs c) (ds ++ allDirectives c) := by
  have hargs : ∀ (args : List String) (st st1 : ParseState) (seen : List String)
      (ds : List Directive), I st seen ds → parseArgs st args = .ok st1 →
        I st1 (seen ++ args) ds := by
    intro args
    induction args with
    | nil =>
      intro st st1 seen ds hI hok
      simp only [parseArgs] at hok
      injection hok with hst
      subst hst
      simpa using hI
    | cons t rest ih =>
      intro st st1 seen ds hI hok
      simp only [parseArgs] at hok
      cases hstep : parseArg st t with
      | error e => simp [hstep] at hok
      | ok st2 =>
        simp only [hstep] at hok
        have := ih st2 st1 (seen ++ [t]) ds (harg st st2 t seen ds hI hstep) hok
        simpa using this
  have hdirs : ∀ (l : List Directive) (st st1 : ParseState) (seen : List String)
      (ds : List Directive), (∀ d ∈ l, d.1 ∈ singleArg → d.2.length ≤ 1) → I st seen ds →
        parseDirectives h st l = .ok st1 → I st1 seen (ds ++ l) := by
    intro l
    induction l with
    | nil =>
      intro st st1 seen ds _ hI hok
      simp only [parseDirectives] at hok
      injection hok with hst
      subst hst
      simpa using hI
    | cons d rest ih =>
      intro st st1 seen ds hshape hI hok
      simp only [parseDirectives] at hok
      cases hstep : parseLine h st (d.1 :: d.2) with
      | error e => simp [hstep] at hok
      | ok st2 =>
        simp only [hstep] at hok
        have hd := hdir st st2 d seen ds (hshape d (by simp)) hI hstep
        have := ih st2 st1 seen (ds ++ [d]) (fun x hx => hshape x (by simp [hx])) hd hok
        simpa using this
  intro c
  induction c with
  | nil =>
    intro st st1 seen ds hI hok
    simp only [parseStanzas] at hok
    injection hok with hst
    subst hst
    simpa [allArgs, allDirectives] using hI
  | cons s rest ih =>
    intro st st1 seen ds hI hok
    simp only [parseStanzas, parseStanza] at hok
    cases hA : parseArgs st s.args with
    | error e => simp [hA] at hok
    | ok st2 =>
      simp only [hA] at hok
      rw [parseBlock_eq_directives] at hok
      cases hB : parseDirectives h st2 (s.block.flatMap lineDirectives) with
      | error e => simp [hB] at hok
      | ok st3 =>
        simp only [hB] at hok
        have h2 := hargs s.args st st2 seen ds hI hA
        have hshape : ∀ d ∈ s.block.flatMap lineDirectives,
            d.1 ∈ singleArg → d.2.length ≤ 1 := by
          intro d hd
          simp only [List.mem_flatMap] at hd
          obtain ⟨line, _, hline⟩ := hd
          exact lineDirectives_shape line d hline
        have h3 := hdirs _ st2 st3 (seen ++ s.args) ds hshape h2 hB
        have := ih st3 st1 _ _ h3 hok
        simpa [allArgs, allDirectives, List.append_assoc] using this

/-- The invariant principle for a whole run of `parse`. -/
theorem run_invariant (h : Collab) (I : ParseState → List String → List Directive → Prop)
    (hinit : I ParseState.init [] [])
    (harg : ∀ st st1 t seen ds, I st seen ds → parseArg st t = .ok st1 → I st1 (seen ++ [t]) ds)
    (hdir : ∀ st st1 d seen ds, (d.1 ∈ singleArg → d.2.length ≤ 1) → I st seen ds →
      parseLine h st (d.1 :: d.2) = .ok st1 → I st1 seen (ds ++ [d]))
    {c : List Stanza} {st : ParseState} (hrun : run h c = .ok st) :
    I st (allArgs c) (allDirectives c) := by
  have := parseStanzas_invariant h I harg hdir c ParseState.init st [] [] hinit hrun
  simpa using this

theorem lastDirective_snoc (kws : List String) (ds : List Directive) (d : Directive) :
    lastDirective kws (ds ++ [d]) = if d.1 ∈ kws then some d else lastDirective kws ds := by
  unfold lastDirective
  by_cases hd : d.1 ∈ kws
  · simp [List.filter_append, hd, List.getLast?_append]
  · simp [List.filter_append, hd]

end azure

namespace strings

theorem triplet_data (rg zone access : String) :
    (azure.triplet rg zone access).data
      = rg.data ++ ':' :: (zone.data ++ ':' :: access.data) := by
  simp [azure.triplet, String.data_append]

/-- Three parts come from a token `a:b:c` in which `a` and `b` hold no colon. -/
theorem SplitN_three {t a b c : String} (hsplit : SplitN t ':' 3 = [a, b, c]) :
    t = azure.triplet a b c ∧ ':' ∉ a.data ∧ ':' ∉ b.data := by
  simp only [SplitN, OfNat.ofNat_ne_zero, if_false, Nat.add_one_sub_one] at hsplit
  cases h1 : cut ':' t.data with
  | none => simp [genSplit, h1] at hsplit
  | some p1 =>
    obtain ⟨x, r1⟩ := p1
    cases h2 : cut ':' r1 with
    | none => simp [genSplit, h1, h2] at hsplit
    | some p2 =>
      obtain ⟨y, r2⟩ := p2
      simp only [genSplit, h1, h2, List.map_cons, List.map_nil, List.cons.injEq, and_true]
        at hsplit
      obtain ⟨ha, hb, hc⟩ := hsplit
      obtain ⟨e1, n1⟩ := cut_some h1
      obtain ⟨e2, n2⟩ := cut_some h2
      subst ha hb hc
      refine ⟨?_, n1, n2⟩
      apply String.ext
      rw [triplet_data, e1, e2]

end strings

namespace azure

theorem triplet_inj {rg zone access rg1 zone1 access1 : String}
    (hrg : ':' ∉ rg.data) (hzone : ':' ∉ zone.data)
    (hrg1 : ':' ∉ rg1.data) (hzone1 : ':' ∉ zone1.data)
    (heq : triplet rg zone access = triplet rg1 zone1 access1) :
    rg = rg1 ∧ zone = zone1 ∧ access = access1 := by
  have h1 := strings.SplitN_triplet rg zone access hrg hzone
  have h2 := strings.SplitN_triplet rg1 zone1 access1 hrg1 hzone1
  rw [heq, h2] at h1
  simp only [List.cons.injEq, and_true] at h1
  exact ⟨h1.1.symm, h1.2.1.symm, h1.2.2.symm⟩

/-- What `parse` does with a valid claim. -/
theorem parseArg_valid (st : ParseState) {rg zone access : String}
    (hvalid : ValidClaim rg zone access) :
    parseArg st (triplet rg zone access) =
      if (st.resourceGroupSet.get? (rg ++ zone)).isSome then
        .error (st, .Errf "conflicting zone: %q" (triplet rg zone access))
      else .ok (st.claim rg zone access) := by
  obtain ⟨hrg, hzone, hrg0, hzone0, hacc⟩ := hvalid
  rw [parseArg_of_split (strings.SplitN_triplet rg zone access hrg hzone)]
  have hcond : ¬ (rg = "" ∨ zone = "" ∨ (access ≠ "public" ∧ access ≠ "private")) := by
    rcases hacc with hacc | hacc <;> simp [hrg0, hzone0, hacc]
  rw [if_neg hcond]

/-- An accepted token is a valid claim, not claimed before. -/
theorem parseArg_ok_valid {st st1 : ParseState} {t : String} (hok : parseArg st t = .ok st1) :
    ∃ rg zone access, t = triplet rg zone access ∧ ValidClaim rg zone access ∧
      st.resourceGroupSet.get? (rg ++ zone) = none ∧ st1 = st.claim rg zone access := by
  obtain ⟨rg, zone, access, hsplit, hrg0, hzone0, hacc, hfresh, hst⟩ := parseArg_ok hok
  obtain ⟨ht, hrg, hzone⟩ := strings.SplitN_three hsplit
  exact ⟨rg, zone, access, ht, ⟨hrg, hzone, hrg0, hzone0, hacc⟩, hfresh, hst⟩

/-- A directive leaves the claims untouched. -/
theorem parseDirective_claims {h : Collab} {st st1 : ParseState} {d : Directive}
    (hshape : d.1 ∈ singleArg → d.2.length ≤ 1)
    (hok : parseLine h st (d.1 :: d.2) = .ok st1) :
    st1.resourceGroupSet = st.resourceGroupSet ∧
      st1.resourceGroupMapping = st.resourceGroupMapping := by
  rcases parseDirective_ok hshape hok with ⟨v, _, hst⟩ | ⟨v, _, hst⟩ | ⟨v, _, hst⟩ |
    ⟨v, _, hst⟩ | ⟨v, e, _, _, hst⟩ | ⟨_, hst⟩ <;> subst hst <;> exact ⟨rfl, rfl⟩

/-- The keys of the uniqueness set are the concatenations `resourceGroup ++ zoneName` of
the claims accepted so far. -/
theorem run_resourceGroupSet {h : Collab} {c : List Stanza} {st : ParseState}
    (hrun : run h c = .ok st) (k : String) :
    (st.resourceGroupSet.get? k).isSome ↔
      ∃ rg zone access, ValidClaim rg zone access ∧ triplet rg zone access ∈ allArgs c ∧
        rg ++ zone = k := by
  refine run_invariant h (fun st seen _ => ∀ k, (st.resourceGroupSet.get? k).isSome ↔
      ∃ rg zone access, ValidClaim rg zone access ∧ triplet rg zone access ∈ seen ∧
        rg ++ zone = k) ?_ ?_ ?_ hrun k
  · intro k
    simp [ParseState.init, GoMap.get?]
  · intro st st1 t seen ds hI hok k
    obtain ⟨rg, zone, access, ht, hvalid, _, hst⟩ := parseArg_ok_valid hok
    subst hst ht
    simp only [ParseState.claim]
    by_cases hk : rg ++ zone = k
    · subst hk
      rw [GoMap.get?_set_self]
      simp only [Option.isSome_some, true_iff]
      exact ⟨rg, zone, access, hvalid, by simp, rfl⟩
    · rw [GoMap.get?_set_ne _ _ _ _ hk, hI k]
      constructor
      · rintro ⟨rg1, zone1, access1, hv1, hmem, hkey⟩
        exact ⟨rg1, zone1, access1, hv1, by simp [hmem], hkey⟩
      · rintro ⟨rg1, zone1, access1, hv1, hmem, hkey⟩
        rcases List.mem_append.mp hmem with hmem | hmem
        · exact ⟨rg1, zone1, access1, hv1, hmem, hkey⟩
        · exfalso
          simp only [List.mem_singleton] at hmem
          obtain ⟨e1, e2, _⟩ := triplet_inj hv1.1 hv1.2.1 hvalid.1 hvalid.2.1 hmem
          exact hk (by rw [← e1, ← e2, hkey])
  · intro st st1 d seen ds hshape hI hok k
    rw [(parseDirective_claims hshape hok).1]
    exact hI k

end azure

namespace azure

/-- Every positional token of a configuration that runs to its end is a valid claim. -/
theorem run_args_valid {h : Collab} {c : List Stanza} {st : ParseState}
    (hrun : run h c = .ok st) :
    ∀ t ∈ allArgs c, ∃ rg zone access, t = triplet rg zone access ∧ ValidClaim rg zone access := by
  refine run_invariant h (fun _ seen _ => ∀ t ∈ seen, ∃ rg zone access,
      t = triplet rg zone access ∧ ValidClaim rg zone access) ?_ ?_ ?_ hrun
  · intro t ht
    simp at ht
  · intro st st1 t seen ds hI hok t1 ht1
    rcases List.mem_append.mp ht1 with hmem | hmem
    · exact hI t1 hmem
    · simp only [List.mem_singleton] at hmem
      subst hmem
      obtain ⟨rg, zone, access, ht, hvalid, _, _⟩ := parseArg_ok_valid hok
      exact ⟨rg, zone, access, ht, hvalid⟩
  · intro st st1 d seen ds _ hI _
    exact hI

theorem append_right_cancel {a b z : String} (heq : a ++ z = b ++ z) : a = b := by
  apply String.ext
  have := congrArg String.data heq
  simpa [String.data_append] using this

/-! ## The claims -/

/-- C1 (evaluated at the failing input): the tokens `ab:c:public` and `a:bc:public` are
valid triplets with different (resource group, zone) pairs, yet `parse` rejects the second
one as a conflicting zone and returns the mapping with the first claim only. -/
theorem C1_distinct_pairs_rejected (h : Collab) :
    ValidClaim "ab" "c" "public" ∧ ValidClaim "a" "bc" "public" ∧
    (("ab", "c") : String × String) ≠ ("a", "bc") ∧
    parse h [⟨[triplet "ab" "c" "public", triplet "a" "bc" "public"], []⟩] =
      { env := { Values := [], Environment := { Name := "", ResourceManagerEndpoint := "" } },
        resourceGroupMapping := [("ab", ["c:public"])],
        fall := { Zones := [] },
        err := some (.Errf "conflicting zone: %q" "a:bc:public") } := by
  refine ⟨?_, ?_, by decide, ?_⟩
  · unfold ValidClaim
    decide
  · unfold ValidClaim
    decide
  · rfl

/-- C2 (counterexample): `rg1:example.com:internal` carries the pair of the accepted token
`rg1:example.com:public` before it, and `parse` reports its access class, not a
conflicting zone: the check of the parts (line 75) comes before the duplicate check
(line 78). -/
theorem C2_second_occurrence_invalid_access :
    (parse demo [⟨["rg1:example.com:public"], []⟩]).err = none ∧
    (parse demo [⟨["rg1:example.com:public", "rg1:example.com:internal"], []⟩]).err =
      some (.Errf "invalid resource group/zone/access: %q" "rg1:example.com:internal") ∧
    (parse demo [⟨["rg1:example.com:public", "rg1:example.com:internal"], []⟩]).err ≠
      some (.Errf "conflicting zone: %q" "rg1:example.com:internal") := by
  decide

/-- C2 (amended): when the configuration cut just before a positional token `rg:zone:a2`
parses without error and already holds a token `rg:zone:a1` with the same resource group
and zone, and `rg:zone:a2` is itself a valid triplet, `parse` fails with the
conflicting-zone error, and the token reported is the second occurrence `rg:zone:a2`,
whatever follows it. -/
theorem C2_duplicate_reports_second (h : Collab) (pre : List Stanza)
    (args1 args2 : List String) (block : List (List String)) (post : List Stanza)
    (rg zone a1 a2 : String)
    (hacc : (parse h (pre ++ [⟨args1, []⟩])).err = none)
    (hfirst : triplet rg zone a1 ∈ allArgs (pre ++ [⟨args1, []⟩]))
    (hvalid : ValidClaim rg zone a2) :
    (parse h (pre ++ ⟨args1 ++ triplet rg zone a2 :: args2, block⟩ :: post)).err =
      some (.Errf "conflicting zone: %q" (triplet rg zone a2)) := by
  obtain ⟨st, hrun⟩ := run_ok_of_parse hacc
  obtain ⟨rg1, zone1, acc1, heq, hv1⟩ := run_args_valid hrun _ hfirst
  obtain ⟨e1, e2, _⟩ := triplet_inj hvalid.1 hvalid.2.1 hv1.1 hv1.2.1 heq
  have hkey : (st.resourceGroupSet.get? (rg ++ zone)).isSome :=
    (run_resourceGroupSet hrun (rg ++ zone)).mpr
      ⟨rg1, zone1, acc1, hv1, heq ▸ hfirst, by rw [e1, e2]⟩
  have herr : parseArg st (triplet rg zone a2) =
      .error (st, .Errf "conflicting zone: %q" (triplet rg zone a2)) := by
    rw [parseArg_valid st hvalid, if_pos hkey]
  rw [parse_of_run_error (run_arg_error hrun herr args2 block post)]

/-- C2 at a concrete configuration: the second stanza repeats `rg1:example.com`. -/
theorem C2_duplicate_reports_second_witness :
    (parse demo ([⟨["rg1:example.com:public"], [["subscription", "sub1"]]⟩] ++
        [⟨["rg2:b.org:private"], []⟩])).err = none ∧
    (parse demo ([⟨["rg1:example.com:public"], [["subscription", "sub1"]]⟩] ++
        ⟨["rg2:b.org:private"] ++ triplet "rg1" "example.com" "private" :: ["rg3:c.org:public"],
          [["tenant", "ten1"]]⟩ :: [])).err =
      some (.Errf "conflicting zone: %q" "rg1:example.com:private") :=
  ⟨by decide,
   C2_duplicate_reports_second demo [⟨["rg1:example.com:public"], [["subscription", "sub1"]]⟩]
     ["rg2:b.org:private"] ["rg3:c.org:public"] [["tenant", "ten1"]] []
     "rg1" "example.com" "public" "private" (by decide) (by decide)
     (by unfold ValidClaim; decide)⟩

/-- C3 (counterexample): the zone `example.com` claimed under `rg1` and under `rg2` is
accepted, and recorded under both resource groups. -/
theorem C3_same_zone_two_groups_accepted :
    parse demo [⟨["rg1:example.com:public", "rg2:example.com:public"], []⟩] =
      { env := { Values := [("AZURE_AD_RESOURCE", "https://management.azure.com/")],
                 Environment := azurerest.PublicCloud },
        resourceGroupMapping := [("rg1", ["example.com:public"]), ("rg2", ["example.com:public"])],
        fall := { Zones := [] },
        err := none } := by
  decide

/-- C3 (amended): after tokens that were all accepted, a valid token `rg:zone:access` is
rejected as a conflicting zone exactly when an earlier token has the same concatenation
`resourceGroup ++ zoneName`, and is accepted otherwise; a token naming the same zone under
another resource group never has that concatenation, so the two do not conflict. -/
theorem C3_conflict_iff_same_key (h : Collab) (pre : List Stanza) (args1 : List String)
    (rg zone access : String)
    (hacc : (parse h (pre ++ [⟨args1, []⟩])).err = none)
    (hvalid : ValidClaim rg zone access) :
    ((parse h (pre ++ [⟨args1 ++ [triplet rg zone access], []⟩])).err =
        some (.Errf "conflicting zone: %q" (triplet rg zone access)) ↔
      ∃ rg1 zone1 access1, ValidClaim rg1 zone1 access1 ∧
        triplet rg1 zone1 access1 ∈ allArgs (pre ++ [⟨args1, []⟩]) ∧
        rg1 ++ zone1 = rg ++ zone) ∧
    ((parse h (pre ++ [⟨args1 ++ [triplet rg zone access], []⟩])).err = none ↔
      ¬ ∃ rg1 zone1 access1, ValidClaim rg1 zone1 access1 ∧
        triplet rg1 zone1 access1 ∈ allArgs (pre ++ [⟨args1, []⟩]) ∧
        rg1 ++ zone1 = rg ++ zone) ∧
    (∀ rg1 : String, rg1 ≠ rg → rg1 ++ zone ≠ rg ++ zone) := by
  obtain ⟨st, hrun⟩ := run_ok_of_parse hacc
  have hkey := run_resourceGroupSet hrun (rg ++ zone)
  obtain ⟨st0, h0, h1⟩ := run_before_arg hrun
  have hfull : run h (pre ++ [⟨args1 ++ [triplet rg zone access], []⟩]) =
      parseArg st (triplet rg zone access) := by
    unfold run
    rw [parseStanzas_append_ok _ h0]
    simp only [parseStanzas, parseStanza]
    rw [parseArgs_append_ok _ h1]
    simp only [parseArgs]
    cases parseArg st (triplet rg zone access) <;> simp [parseBlock]
  refine ⟨?_, ?_, fun rg1 hne heq => hne (append_right_cancel heq)⟩
  · rw [← hkey]
    unfold parse
    rw [hfull, parseArg_valid st hvalid]
    by_cases hk : (st.resourceGroupSet.get? (rg ++ zone)).isSome <;> simp [hk]
  · rw [← hkey]
    unfold parse
    rw [hfull, parseArg_valid st hvalid]
    by_cases hk : (st.resourceGroupSet.get? (rg ++ zone)).isSome <;> simp [hk]

/-- C3 (amended) at a concrete configuration: `rg2:example.com:public` after
`rg1:example.com:public` is accepted. -/
theorem C3_conflict_iff_same_key_witness :
    (parse demo ([] ++ [⟨["rg1:example.com:public"], []⟩])).err = none ∧
    ValidClaim "rg2" "example.com" "public" ∧
    ((parse demo ([] ++ [⟨["rg1:example.com:public"] ++
        [triplet "rg2" "example.com" "public"], []⟩])).err = none ↔
      ¬ ∃ rg1 zone1 access1, ValidClaim rg1 zone1 access1 ∧
        triplet rg1 zone1 access1 ∈ allArgs ([] ++ [⟨["rg1:example.com:public"], []⟩]) ∧
        rg1 ++ zone1 = "rg2" ++ "example.com") :=
  ⟨by decide, by unfold ValidClaim; decide,
   (C3_conflict_iff_same_key demo [] ["rg1:example.com:public"] "rg2" "example.com" "public"
     (by decide) (by unfold ValidClaim; decide)).2.1⟩

end azure

namespace strings

theorem cut_isSome {sep : Char} {s : List Char} (hs : 0 < s.count sep) :
    ∃ a b, cut sep s = some (a, b) := by
  cases hcut : cut sep s with
  | none =>
    have := cut_none hcut
    rw [List.count_pos_iff] at hs
    exact absurd hs this
  | some p => exact ⟨p.1, p.2, rfl⟩

theorem count_of_cut {sep : Char} {s a b : List Char} (hcut : cut sep s = some (a, b)) :
    s.count sep = b.count sep + 1 := by
  obtain ⟨e, hna⟩ := cut_some hcut
  subst e
  simp [List.count_append, List.count_eq_zero_of_not_mem hna]

/-- With fewer than two colons the split gives fewer than three parts. -/
theorem SplitN_few {t : String} (ht : azure.colons t < 2) (a b c : String) :
    SplitN t ':' 3 ≠ [a, b, c] := by
  intro hsplit
  obtain ⟨e, _, _⟩ := SplitN_three hsplit
  have hdata := congrArg String.data e
  rw [triplet_data] at hdata
  have hcount : azure.colons t
      = a.data.count ':' + (b.data.count ':' + (c.data.count ':' + 1) + 1) := by
    simp [azure.colons, hdata, List.count_append]
  omega

/-- With three colons or more the split gives three parts, and the third holds a colon. -/
theorem SplitN_many {t : String} (ht : 3 ≤ azure.colons t) :
    ∃ a b c, SplitN t ':' 3 = [a, b, c] ∧ ':' ∈ c.data := by
  unfold azure.colons at ht
  obtain ⟨x, r1, h1⟩ := cut_isSome (show 0 < t.data.count ':' by omega)
  have c1 := count_of_cut h1
  obtain ⟨y, r2, h2⟩ := cut_isSome (show 0 < r1.count ':' by omega)
  have c2 := count_of_cut h2
  refine ⟨⟨x⟩, ⟨y⟩, ⟨r2⟩, ?_, ?_⟩
  · simp [SplitN, genSplit, h1, h2]
  · show ':' ∈ r2
    rw [← List.count_pos_iff]
    omega

end strings

namespace azure

theorem parseArg_malformed (st : ParseState) {t : String}
    (hparts : ∀ a b c, strings.SplitN t ':' 3 ≠ [a, b, c]) :
    parseArg st t = .error (st, .Errf "invalid resource group/zone: %q" t) := by
  unfold parseArg
  split
  · rename_i a b c hsplit
    exact absurd hsplit (hparts a b c)
  · rfl

theorem parseArg_invalid (st : ParseState) {t rg zone access : String}
    (hsplit : strings.SplitN t ':' 3 = [rg, zone, access])
    (hbad : rg = "" ∨ zone = "" ∨ (access ≠ "public" ∧ access ≠ "private")) :
    parseArg st t = .error (st, .Errf "invalid resource group/zone/access: %q" t) := by
  rw [parseArg_of_split hsplit, if_pos hbad]

/-- C4 (counterexample): the four-part token `a:b:c:d` is not reported as a malformed
claim; the split is capped at three parts and the token fails the next check. -/
theorem C4_four_parts_not_malformed :
    (parse demo [⟨["a:b:c:d"], []⟩]).err =
        some (.Errf "invalid resource group/zone/access: %q" "a:b:c:d") ∧
    (parse demo [⟨["a:b:c:d"], []⟩]).err ≠
        some (.Errf "invalid resource group/zone: %q" "a:b:c:d") := by
  decide

/-- C4 (amended): after tokens that were all accepted, a positional token with fewer than
two colons (one or two parts) fails with the error `invalid resource group/zone` carrying
that token, and a token with three colons or more (four parts or more) fails with the
error `invalid resource group/zone/access` carrying that token. -/
theorem C4_malformed_under_three_parts (h : Collab) (pre : List Stanza)
    (args1 args2 : List String) (block : List (List String)) (post : List Stanza) (t : String)
    (hacc : (parse h (pre ++ [⟨args1, []⟩])).err = none) :
    (colons t < 2 →
      (parse h (pre ++ ⟨args1 ++ t :: args2, block⟩ :: post)).err =
        some (.Errf "invalid resource group/zone: %q" t)) ∧
    (3 ≤ colons t →
      (parse h (pre ++ ⟨args1 ++ t :: args2, block⟩ :: post)).err =
        some (.Errf "invalid resource group/zone/access: %q" t)) := by
  obtain ⟨st, hrun⟩ := run_ok_of_parse hacc
  constructor
  · intro ht
    have herr := parseArg_malformed st (strings.SplitN_few ht)
    rw [parse_of_run_error (run_arg_error hrun herr args2 block post)]
  · intro ht
    obtain ⟨a, b, c, hsplit, hc⟩ := strings.SplitN_many ht
    have hbad : a = "" ∨ b = "" ∨ (c ≠ "public" ∧ c ≠ "private") := by
      refine Or.inr (Or.inr ⟨?_, ?_⟩) <;> intro hc1 <;> subst hc1 <;> simp at hc
    have herr := parseArg_invalid st hsplit hbad
    rw [parse_of_run_error (run_arg_error hrun herr args2 block post)]

/-- C4 (amended) at a concrete configuration: the two-part token `rg:zone` after an
accepted claim. -/
theorem C4_malformed_under_three_parts_witness :
    (parse demo ([] ++ [⟨["rg1:example.com:public"], []⟩])).err = none ∧
    colons "rg:zone" < 2 ∧
    (parse demo ([] ++ ⟨["rg1:example.com:public"] ++ "rg:zone" :: ["rg2:b.org:public"],
        [["tenant", "ten1"]]⟩ :: [])).err =
      some (.Errf "invalid resource group/zone: %q" "rg:zone") :=
  ⟨by decide, by decide,
   (C4_malformed_under_three_parts demo [] ["rg1:example.com:public"] ["rg2:b.org:public"]
     [["tenant", "ten1"]] [] "rg:zone" (by decide)).1 (by decide)⟩

/-- C5: after tokens that were all accepted, a positional token that splits into the three
parts `rg`, `zone`, `access` with `rg` empty, or `zone` empty, or `access` neither `public`
nor `private`, fails with the error `invalid resource group/zone/access` carrying that
token; nothing is assumed of the uniqueness set, so the error is the same when
`rg` and `zone` are already claimed. -/
theorem C5_invalid_claim (h : Collab) (pre : List Stanza)
    (args1 args2 : List String) (block : List (List String)) (post : List Stanza)
    (rg zone access : String)
    (hacc : (parse h (pre ++ [⟨args1, []⟩])).err = none)
    (hrg : ':' ∉ rg.data) (hzone : ':' ∉ zone.data)
    (hbad : rg = "" ∨ zone = "" ∨ (access ≠ "public" ∧ access ≠ "private")) :
    (parse h (pre ++ ⟨args1 ++ triplet rg zone access :: args2, block⟩ :: post)).err =
      some (.Errf "invalid resource group/zone/access: %q" (triplet rg zone access)) := by
  obtain ⟨st, hrun⟩ := run_ok_of_parse hacc
  have herr := parseArg_invalid st (strings.SplitN_triplet rg zone access hrg hzone) hbad
  rw [parse_of_run_error (run_arg_error hrun herr args2 block post)]

/-- C5 at a concrete configuration: `rg1:example.com` is already claimed, and the token
`rg1:example.com:internal` is reported for its access class, not as a conflict. -/
theorem C5_invalid_claim_witness :
    (parse demo ([] ++ [⟨["rg1:example.com:public"], []⟩])).err = none ∧
    (parse demo ([] ++ ⟨["rg1:example.com:public"] ++
        triplet "rg1" "example.com" "internal" :: [], []⟩ :: [])).err =
      some (.Errf "invalid resource group/zone/access: %q" "rg1:example.com:internal") :=
  ⟨by decide,
   C5_invalid_claim demo [] ["rg1:example.com:public"] [] [] [] "rg1" "example.com" "internal"
     (by decide) (by decide) (by decide) (by decide)⟩

end azure

namespace azure

/-- A positional token leaves the settings untouched. -/
theorem parseArg_settings {st st1 : ParseState} {t : String} (hok : parseArg st t = .ok st1) :
    st1.env = st.env ∧ st1.azureEnv = st.azureEnv ∧ st1.fall = st.fall := by
  obtain ⟨rg, zone, access, _, _, _, hst⟩ := parseArg_ok_valid hok
  subst hst
  exact ⟨rfl, rfl, rfl⟩

/-- The selected environment is the one resolved by the last `environment` directive. -/
theorem run_azureEnv {h : Collab} {c : List Stanza} {st : ParseState}
    (hrun : run h c = .ok st) :
    match lastDirective ["environment"] (allDirectives c) with
    | none => st.azureEnv = azurerest.PublicCloud
    | some d => ∃ name, d = ("environment", [name]) ∧
        h.EnvironmentFromName name = .ok st.azureEnv := by
  refine run_invariant h (fun st _ ds =>
    match lastDirective ["environment"] ds with
    | none => st.azureEnv = azurerest.PublicCloud
    | some d => ∃ name, d = ("environment", [name]) ∧
        h.EnvironmentFromName name = .ok st.azureEnv) ?_ ?_ ?_ hrun
  · simp [lastDirective, ParseState.init]
  · intro st st1 t seen ds hI hok
    simp only [(parseArg_settings hok).2.1]
    exact hI
  · intro st st1 d seen ds hshape hI hok
    simp only [lastDirective_snoc]
    rcases parseDirective_ok hshape hok with ⟨v, hd, hst⟩ | ⟨v, hd, hst⟩ | ⟨v, hd, hst⟩ |
      ⟨v, hd, hst⟩ | ⟨v, e, hd, hres, hst⟩ | ⟨hd, hst⟩
    · subst hd hst
      simpa [ParseState.setValue] using hI
    · subst hd hst
      simpa [ParseState.setValue] using hI
    · subst hd hst
      simpa [ParseState.setValue] using hI
    · subst hd hst
      simpa [ParseState.setValue] using hI
    · subst hd hst
      simpa using hres
    · subst hst
      simpa [hd] using hI

/-- The value stored under `key` is the argument of the last directive that assigns it. -/
theorem run_value {h : Collab} {c : List Stanza} {st : ParseState}
    (hrun : run h c = .ok st) {kws : List String} {key : String} (hassign : Assigns kws key) :
    st.env.Values.get? key = lastArg kws (allDirectives c) := by
  obtain ⟨a1, a2, a3, a4, a5, a6⟩ := hassign
  refine run_invariant h (fun st _ ds => st.env.Values.get? key = lastArg kws ds) ?_ ?_ ?_ hrun
  · simp [lastArg, lastDirective, ParseState.init, GoMap.get?]
  · intro st st1 t seen ds hI hok
    simp only [(parseArg_settings hok).1]
    exact hI
  · intro st st1 d seen ds hshape hI hok
    simp only [lastArg, lastDirective_snoc] at hI ⊢
    rcases parseDirective_ok hshape hok with ⟨v, hd, hst⟩ | ⟨v, hd, hst⟩ | ⟨v, hd, hst⟩ |
      ⟨v, hd, hst⟩ | ⟨v, e, hd, hres, hst⟩ | ⟨hd, hst⟩
    · subst hd hst
      by_cases hk : auth.SubscriptionID = key
      · simp [ParseState.setValue, a1.mpr hk, ← hk, GoMap.get?_set_self]
      · simp [ParseState.setValue, mt a1.mp hk, GoMap.get?_set_ne _ _ _ _ hk, hI]
    · subst hd hst
      by_cases hk : auth.TenantID = key
      · simp [ParseState.setValue, a2.mpr hk, ← hk, GoMap.get?_set_self]
      · simp [ParseState.setValue, mt a2.mp hk, GoMap.get?_set_ne _ _ _ _ hk, hI]
    · subst hd hst
      by_cases hk : auth.ClientID = key
      · simp [ParseState.setValue, a3.mpr hk, ← hk, GoMap.get?_set_self]
      · simp [ParseState.setValue, mt a3.mp hk, GoMap.get?_set_ne _ _ _ _ hk, hI]
    · subst hd hst
      by_cases hk : auth.ClientSecret = key
      · simp [ParseState.setValue, a4.mpr hk, ← hk, GoMap.get?_set_self]
      · simp [ParseState.setValue, mt a4.mp hk, GoMap.get?_set_ne _ _ _ _ hk, hI]
    · subst hd hst
      by_cases hk : auth.ClientSecret = key
      · simp [ParseState.setValue, a5.mpr hk, ← hk, GoMap.get?_set_self]
      · simp [ParseState.setValue, mt a5.mp hk, GoMap.get?_set_ne _ _ _ _ hk, hI]
    · subst hst
      have hnot : d.1 ∉ kws := hd ▸ a6
      simp [hnot, hI]

end azure

namespace azure

theorem lastDirective_isSome (kws : List String) (ds : List Directive) :
    (lastDirective kws ds).isSome ↔ ∃ d ∈ ds, d.1 ∈ kws := by
  induction ds using List.reverseRecOn with
  | nil => simp [lastDirective]
  | append_singleton ds d ih =>
    rw [lastDirective_snoc]
    by_cases hd : d.1 ∈ kws
    · simp only [hd, if_true, Option.isSome_some, true_iff]
      exact ⟨d, by simp, hd⟩
    · simp only [hd, if_false, ih]
      constructor
      · rintro ⟨x, hx, hk⟩
        exact ⟨x, by simp [hx], hk⟩
      · rintro ⟨x, hx, hk⟩
        rcases List.mem_append.mp hx with hx | hx
        · exact ⟨x, hx, hk⟩
        · simp only [List.mem_singleton] at hx
          subst hx
          exact absurd hk hd

theorem lastDirective_mem {kws : List String} {ds : List Directive} {d : Directive}
    (hlast : lastDirective kws ds = some d) : d ∈ ds ∧ d.1 ∈ kws := by
  unfold lastDirective at hlast
  have := List.mem_of_getLast?_eq_some hlast
  simpa using this

/-- Every directive of a configuration that runs to its end is a single-argument keyword
with its argument, or `fallthrough`. -/
theorem run_directives_valid {h : Collab} {c : List Stanza} {st : ParseState}
    (hrun : run h c = .ok st) :
    ∀ d ∈ allDirectives c, (d.1 ∈ singleArg ∧ ∃ v, d.2 = [v]) ∨ d.1 = "fallthrough" := by
  refine run_invariant h (fun _ _ ds => ∀ d ∈ ds,
      (d.1 ∈ singleArg ∧ ∃ v, d.2 = [v]) ∨ d.1 = "fallthrough") ?_ ?_ ?_ hrun
  · intro d hd
    simp at hd
  · intro st st1 t seen ds hI _
    exact hI
  · intro st st1 d seen ds hshape hI hok x hx
    rcases List.mem_append.mp hx with hx | hx
    · exact hI x hx
    · simp only [List.mem_singleton] at hx
      subst hx
      rcases parseDirective_ok hshape hok with ⟨v, hd, _⟩ | ⟨v, hd, _⟩ | ⟨v, hd, _⟩ |
        ⟨v, hd, _⟩ | ⟨v, e, hd, _, _⟩ | ⟨hd, _⟩
      · subst hd
        exact Or.inl ⟨by simp [singleArg], v, rfl⟩
      · subst hd
        exact Or.inl ⟨by simp [singleArg], v, rfl⟩
      · subst hd
        exact Or.inl ⟨by simp [singleArg], v, rfl⟩
      · subst hd
        exact Or.inl ⟨by simp [singleArg], v, rfl⟩
      · subst hd
        exact Or.inl ⟨by simp [singleArg], v, rfl⟩
      · exact Or.inr hd

/-- In a configuration that runs to its end, a field is set exactly when one of the
keywords that assign it occurs. -/
theorem run_value_isSome {h : Collab} {c : List Stanza} {st : ParseState}
    (hrun : run h c = .ok st) (kws : List String) {key : String} (hassign : Assigns kws key) :
    (st.env.Values.get? key).isSome ↔ (lastDirective kws (allDirectives c)).isSome := by
  rw [run_value hrun hassign, lastArg]
  cases hlast : lastDirective kws (allDirectives c) with
  | none => simp
  | some d =>
    obtain ⟨hmem, hkw⟩ := lastDirective_mem hlast
    rcases run_directives_valid hrun d hmem with ⟨_, v, hv⟩ | hfall
    · simp [hv]
    · exact absurd (hfall ▸ hkw) hassign.2.2.2.2.2

theorem parse_value_of_run {h : Collab} {c : List Stanza} {st : ParseState}
    (hrun : run h c = .ok st) {key : String} (hkey : auth.Resource ≠ key) :
    (parse h c).env.Values.get? key = st.env.Values.get? key := by
  rw [parse_of_run_ok hrun]
  exact GoMap.get?_set_ne _ _ _ _ hkey

/-- C6: after a successful `parse`, `Values[Resource]` is the resource-manager endpoint of
the returned environment descriptor, and that descriptor is the public cloud when the
input has no `environment` directive, and otherwise the one the resolver returns for the
argument of the last `environment` directive. -/
theorem C6_endpoint_of_last_environment (h : Collab) (c : List Stanza)
    (hok : (parse h c).err = none) :
    (parse h c).env.Values.get? auth.Resource =
        some (parse h c).env.Environment.ResourceManagerEndpoint ∧
    (match lastDirective ["environment"] (allDirectives c) with
     | none => (parse h c).env.Environment = azurerest.PublicCloud
     | some d => ∃ name, d = ("environment", [name]) ∧
         h.EnvironmentFromName name = .ok (parse h c).env.Environment) := by
  obtain ⟨st, hrun⟩ := run_ok_of_parse hok
  rw [parse_of_run_ok hrun]
  exact ⟨GoMap.get?_set_self _ _ _, run_azureEnv hrun⟩

/-- C6 at two concrete configurations: the empty one, and one whose two stanzas select the
public cloud and then the China cloud. -/
theorem C6_endpoint_of_last_environment_witness :
    ((parse demo []).err = none ∧
      (parse demo []).env.Values.get? auth.Resource = some "https://management.azure.com/" ∧
      (parse demo []).env.Environment = azurerest.PublicCloud) ∧
    ((parse demo [⟨[], [["environment", "AzurePublicCloud"]]⟩,
        ⟨["rg1:example.com:public"],
          [["environment", "AzureChinaCloud"], ["secret", "s3cr3t"]]⟩]).err = none ∧
      (parse demo [⟨[], [["environment", "AzurePublicCloud"]]⟩,
        ⟨["rg1:example.com:public"],
          [["environment", "AzureChinaCloud"], ["secret", "s3cr3t"]]⟩]).env.Values.get?
          auth.Resource = some "https://management.chinacloudapi.cn/" ∧
      ∃ name, (("environment", ["AzureChinaCloud"]) : Directive) = ("environment", [name]) ∧
        demo.EnvironmentFromName name = .ok
          (parse demo [⟨[], [["environment", "AzurePublicCloud"]]⟩,
            ⟨["rg1:example.com:public"],
              [["environment", "AzureChinaCloud"], ["secret", "s3cr3t"]]⟩]).env.Environment) :=
  ⟨⟨by decide, C6_endpoint_of_last_environment demo [] (by decide)⟩,
   ⟨by decide,
    C6_endpoint_of_last_environment demo [⟨[], [["environment", "AzurePublicCloud"]]⟩,
      ⟨["rg1:example.com:public"],
        [["environment", "AzureChinaCloud"], ["secret", "s3cr3t"]]⟩] (by decide)⟩⟩

/-- C7 (evaluated at the failing input): with `secret s3cr3t` followed by
`environment AzurePublicCloud`, the last `secret` directive has the argument `s3cr3t`, and
the client secret `parse` returns is the environment name. -/
theorem C7_environment_overwrites_secret :
    lastArg ["secret"]
        (allDirectives [⟨[], [["secret", "s3cr3t"], ["environment", "AzurePublicCloud"]]⟩])
      = some "s3cr3t" ∧
    parse demo [⟨[], [["secret", "s3cr3t"], ["environment", "AzurePublicCloud"]]⟩] =
      { env := { Values := [("AZURE_CLIENT_SECRET", "AzurePublicCloud"),
                            ("AZURE_AD_RESOURCE", "https://management.azure.com/")],
                 Environment := azurerest.PublicCloud },
        resourceGroupMapping := [],
        fall := { Zones := [] },
        err := none } := by
  decide

/-- C8 (counterexample): the empty configuration parses without error, and none of the
subscription, tenant, client and secret fields is set. -/
theorem C8_empty_configuration_unpopulated :
    (parse demo []).err = none ∧
    (parse demo []).env.Values.get? auth.SubscriptionID = none ∧
    (parse demo []).env.Values.get? auth.TenantID = none ∧
    (parse demo []).env.Values.get? auth.ClientID = none ∧
    (parse demo []).env.Values.get? auth.ClientSecret = none := by
  decide

/-- C8 (amended): whenever `parse` returns without error the resource-manager endpoint is
set; the subscription, tenant and client identifiers are set exactly when the input has a
directive of that keyword, and the client secret is set when the input has a `secret`
directive. No field is required. -/
theorem C8_fields_set_by_their_directives (h : Collab) (c : List Stanza)
    (hok : (parse h c).err = none) :
    (parse h c).env.Values.get? auth.Resource =
        some (parse h c).env.Environment.ResourceManagerEndpoint ∧
    (((parse h c).env.Values.get? auth.SubscriptionID).isSome ↔
      ∃ d ∈ allDirectives c, d.1 = "subscription") ∧
    (((parse h c).env.Values.get? auth.TenantID).isSome ↔
      ∃ d ∈ allDirectives c, d.1 = "tenant") ∧
    (((parse h c).env.Values.get? auth.ClientID).isSome ↔
      ∃ d ∈ allDirectives c, d.1 = "client") ∧
    ((∃ d ∈ allDirectives c, d.1 = "secret") →
      ((parse h c).env.Values.get? auth.ClientSecret).isSome) := by
  obtain ⟨st, hrun⟩ := run_ok_of_parse hok
  refine ⟨?_, ?_, ?_, ?_, ?_⟩
  · rw [parse_of_run_ok hrun]
    exact GoMap.get?_set_self _ _ _
  · rw [parse_value_of_run hrun (by decide),
      run_value_isSome hrun ["subscription"] (by unfold Assigns; decide),
      lastDirective_isSome]
    simp
  · rw [parse_value_of_run hrun (by decide),
      run_value_isSome hrun ["tenant"] (by unfold Assigns; decide),
      lastDirective_isSome]
    simp
  · rw [parse_value_of_run hrun (by decide),
      run_value_isSome hrun ["client"] (by unfold Assigns; decide),
      lastDirective_isSome]
    simp
  · rintro ⟨d, hd, hkw⟩
    rw [parse_value_of_run hrun (by decide),
      run_value_isSome hrun ["secret", "environment"] (by unfold Assigns; decide),
      lastDirective_isSome]
    exact ⟨d, hd, by simp [hkw]⟩

/-- C8 (amended) at a concrete configuration: only `tenant` is given. -/
theorem C8_fields_set_by_their_directives_witness :
    (parse demo [⟨["rg1:example.com:public"], [["tenant", "ten1"]]⟩]).err = none ∧
    (((parse demo [⟨["rg1:example.com:public"], [["tenant", "ten1"]]⟩]).env.Values.get?
        auth.TenantID).isSome ↔
      ∃ d ∈ allDirectives [⟨["rg1:example.com:public"], [["tenant", "ten1"]]⟩],
        d.1 = "tenant") :=
  ⟨by decide,
   (C8_fields_set_by_their_directives demo
     [⟨["rg1:example.com:public"], [["tenant", "ten1"]]⟩] (by decide)).2.2.1⟩

end azure

namespace azure

/-- An error raised on a line of a block, from the states reached before it. -/
theorem run_line_error_of {h : Collab} {pre : List Stanza} {args : List String}
    {block1 : List (List String)} {st0 st1 st2 : ParseState}
    (h0 : parseStanzas h ParseState.init pre = .ok st0) (h1 : parseArgs st0 args = .ok st1)
    (h2 : parseBlock h st1 block1 = .ok st2)
    {line : List String} {e : ParseState × ParseError} (herr : parseLine h st2 line = .error e)
    (block2 : List (List String)) (post : List Stanza) :
    run h (pre ++ ⟨args, block1 ++ line :: block2⟩ :: post) = .error e := by
  unfold run
  rw [parseStanzas_append_ok _ h0]
  simp only [parseStanzas, parseStanza, h1]
  rw [parseBlock_append_ok _ h2]
  simp only [parseBlock, herr]

theorem parseLine_missing (h : Collab) (st : ParseState) {kw : String} (hkw : kw ∈ singleArg) :
    parseLine h st [kw] = .error (st, .ArgErr kw) := by
  simp only [singleArg, List.mem_cons, List.mem_singleton, List.not_mem_nil, or_false] at hkw
  rcases hkw with hkw | hkw | hkw | hkw | hkw <;> subst hkw <;> simp [parseLine]

/-- C9: each of `subscription`, `tenant`, `client` followed by an argument `v` moves the
loop on with `v` stored under the key of that keyword and nothing else changed (the other
keys of `Values`, the mapping, the uniqueness set, the selected environment and the
fallthrough policy); and after a successful `parse` the field holds the argument of the
last directive of that keyword, and is unset when there is none. -/
theorem C9_identifier_directives (h : Collab) (c : List Stanza) :
    (∀ p ∈ [("subscription", auth.SubscriptionID), ("tenant", auth.TenantID),
        ("client", auth.ClientID)],
      ∀ (st : ParseState) (v : String) (rest : List String),
        parseLine h st (p.1 :: v :: rest) = parseLine h (st.setValue p.2 v) rest ∧
        (st.setValue p.2 v).env.Values.get? p.2 = some v ∧
        (∀ k, k ≠ p.2 → (st.setValue p.2 v).env.Values.get? k = st.env.Values.get? k) ∧
        (st.setValue p.2 v).env.Environment = st.env.Environment ∧
        (st.setValue p.2 v).resourceGroupMapping = st.resourceGroupMapping ∧
        (st.setValue p.2 v).resourceGroupSet = st.resourceGroupSet ∧
        (st.setValue p.2 v).azureEnv = st.azureEnv ∧
        (st.setValue p.2 v).fall = st.fall) ∧
    ((parse h c).err = none →
      ∀ p ∈ [("subscription", auth.SubscriptionID), ("tenant", auth.TenantID),
          ("client", auth.ClientID)],
        (parse h c).env.Values.get? p.2 = lastArg [p.1] (allDirectives c)) := by
  constructor
  · intro p hp st v rest
    have hframe : (st.setValue p.2 v).env.Values.get? p.2 = some v ∧
        (∀ k, k ≠ p.2 → (st.setValue p.2 v).env.Values.get? k = st.env.Values.get? k) ∧
        (st.setValue p.2 v).env.Environment = st.env.Environment ∧
        (st.setValue p.2 v).resourceGroupMapping = st.resourceGroupMapping ∧
        (st.setValue p.2 v).resourceGroupSet = st.resourceGroupSet ∧
        (st.setValue p.2 v).azureEnv = st.azureEnv ∧
        (st.setValue p.2 v).fall = st.fall :=
      ⟨GoMap.get?_set_self _ _ _, fun k hk => GoMap.get?_set_ne _ _ _ _ (Ne.symm hk),
        rfl, rfl, rfl, rfl, rfl⟩
    refine ⟨?_, hframe⟩
    simp only [List.mem_cons, List.mem_singleton, List.not_mem_nil, or_false] at hp
    rcases hp with hp | hp | hp <;> subst hp <;> simp [parseLine]
  · intro hok p hp
    obtain ⟨st, hrun⟩ := run_ok_of_parse hok
    simp only [List.mem_cons, List.mem_singleton, List.not_mem_nil, or_false] at hp
    rcases hp with hp | hp | hp <;> subst hp
    · rw [parse_value_of_run hrun (by decide)]
      exact run_value hrun (by unfold Assigns; decide)
    · rw [parse_value_of_run hrun (by decide)]
      exact run_value hrun (by unfold Assigns; decide)
    · rw [parse_value_of_run hrun (by decide)]
      exact run_value hrun (by unfold Assigns; decide)

/-- C9 at a concrete configuration: `subscription` is given in both stanzas, and twice in
the second; the last argument is the one returned. -/
theorem C9_identifier_directives_witness :
    (parse demo [⟨[], [["subscription", "sub1"], ["tenant", "ten1"]]⟩,
      ⟨["rg1:example.com:public"],
        [["subscription", "sub2"], ["client", "cli1", "subscription", "sub3"]]⟩]).err = none ∧
    (parse demo [⟨[], [["subscription", "sub1"], ["tenant", "ten1"]]⟩,
      ⟨["rg1:example.com:public"],
        [["subscription", "sub2"], ["client", "cli1", "subscription", "sub3"]]⟩]).env.Values.get?
        auth.SubscriptionID = some "sub3" :=
  ⟨by decide,
   (C9_identifier_directives demo [⟨[], [["subscription", "sub1"], ["tenant", "ten1"]]⟩,
      ⟨["rg1:example.com:public"],
        [["subscription", "sub2"], ["client", "cli1", "subscription", "sub3"]]⟩]).2
     (by decide) ("subscription", auth.SubscriptionID) (by simp)⟩

/-- C10: when a single-argument keyword stands in keyword position as the last token of a
line of a block, and the configuration cut just before it parses without error, `parse`
fails with the argument error raised at that keyword and returns the variables exactly as
they stood before the keyword: the directive assigns no field. -/
theorem C10_missing_argument (h : Collab) (pre : List Stanza) (args : List String)
    (block1 block2 : List (List String)) (line0 : List String) (kw : String)
    (post : List Stanza)
    (hkw : kw ∈ singleArg)
    (hpos : lineDirectives (line0 ++ [kw]) = lineDirectives line0 ++ [(kw, [])])
    (hacc : (parse h (pre ++ [⟨args, block1 ++ [line0]⟩])).err = none) :
    ∃ st, run h (pre ++ [⟨args, block1 ++ [line0]⟩]) = .ok st ∧
      parse h (pre ++ ⟨args, block1 ++ (line0 ++ [kw]) :: block2⟩ :: post) =
        { env := st.env, resourceGroupMapping := st.resourceGroupMapping, fall := st.fall,
          err := some (.ArgErr kw) } := by
  obtain ⟨st, hrun⟩ := run_ok_of_parse hacc
  refine ⟨st, hrun, ?_⟩
  obtain ⟨st0, st1, h0, h1, h2⟩ := run_before_line hrun
  obtain ⟨st2, h3, h4⟩ := parseBlock_append_inv h2
  have hline0 : parseLine h st2 line0 = .ok st := by
    simp only [parseBlock] at h4
    cases hl : parseLine h st2 line0 with
    | error e => simp [hl] at h4
    | ok st3 =>
      simp only [hl] at h4
      injection h4 with h5
      rw [h5]
  have herr : parseLine h st2 (line0 ++ [kw]) = .error (st, .ArgErr kw) := by
    rw [parseLine_eq_directives, hpos]
    rw [parseLine_eq_directives] at hline0
    rw [parseDirectives_append_ok _ hline0]
    simp only [parseDirectives, parseLine_missing h st hkw]
  rw [parse_of_run_error (run_line_error_of h0 h1 h3 herr block2 post)]

/-- C10 at a concrete configuration: `subscription` ends the line `tenant ten1 subscription`. -/
theorem C10_missing_argument_witness :
    "subscription" ∈ singleArg ∧
    lineDirectives (["tenant", "ten1"] ++ ["subscription"]) =
      lineDirectives ["tenant", "ten1"] ++ [("subscription", [])] ∧
    (parse demo ([] ++ [⟨["rg1:example.com:public"],
      [["client", "cli1"]] ++ [["tenant", "ten1"]]⟩])).err = none ∧
    ∃ st, run demo ([] ++ [⟨["rg1:example.com:public"],
        [["client", "cli1"]] ++ [["tenant", "ten1"]]⟩]) = .ok st ∧
      parse demo ([] ++ ⟨["rg1:example.com:public"],
          [["client", "cli1"]] ++ (["tenant", "ten1"] ++ ["subscription"]) ::
            [["secret", "s3cr3t"]]⟩ :: []) =
        { env := st.env, resourceGroupMapping := st.resourceGroupMapping, fall := st.fall,
          err := some (.ArgErr "subscription") } :=
  ⟨by decide, by decide, by decide,
   C10_missing_argument demo [] ["rg1:example.com:public"] [["client", "cli1"]]
     [["secret", "s3cr3t"]] ["tenant", "ten1"] "subscription" [] (by decide) (by decide)
     (by decide)⟩

end azure

namespace azure

/-! ## Configurations of valid claims -/

/-- A valid directive does not fail, and leaves the claims untouched. -/
theorem parseDirective_valid {h : Collab} {d : Directive} (hvalid : ValidDirective h d)
    (st : ParseState) :
    ∃ st1, parseLine h st (d.1 :: d.2) = .ok st1 ∧
      st1.resourceGroupSet = st.resourceGroupSet ∧
      st1.resourceGroupMapping = st.resourceGroupMapping := by
  obtain ⟨kw, args⟩ := d
  rcases hvalid with ⟨hkw, v, hv, henv⟩ | hfall
  · simp only at hkw hv henv
    subst hv
    simp only [singleArg, List.mem_cons, List.mem_singleton, List.not_mem_nil, or_false] at hkw
    rcases hkw with hkw | hkw | hkw | hkw | hkw <;> subst hkw
    · exact ⟨st.setValue auth.SubscriptionID v, by simp [parseLine], rfl, rfl⟩
    · exact ⟨st.setValue auth.TenantID v, by simp [parseLine], rfl, rfl⟩
    · exact ⟨st.setValue auth.ClientID v, by simp [parseLine], rfl, rfl⟩
    · exact ⟨st.setValue auth.ClientSecret v, by simp [parseLine], rfl, rfl⟩
    · obtain ⟨e, he⟩ := henv rfl
      exact ⟨{ st.setValue auth.ClientSecret v with azureEnv := e },
        by simp [parseLine, he], rfl, rfl⟩
  · simp only at hfall
    subst hfall
    refine ⟨{ st with fall := st.fall.SetZonesFromArgs h.Normalize args }, ?_, rfl, rfl⟩
    cases args <;> simp [parseLine]

theorem parseDirectives_valid {h : Collab} {ds : List Directive}
    (hvalid : ∀ d ∈ ds, ValidDirective h d) (st : ParseState) :
    ∃ st1, parseDirectives h st ds = .ok st1 ∧
      st1.resourceGroupSet = st.resourceGroupSet ∧
      st1.resourceGroupMapping = st.resourceGroupMapping := by
  induction ds generalizing st with
  | nil => exact ⟨st, rfl, rfl, rfl⟩
  | cons d rest ih =>
    obtain ⟨st1, h1, e1, m1⟩ := parseDirective_valid (hvalid d (by simp)) st
    obtain ⟨st2, h2, e2, m2⟩ := ih (fun x hx => hvalid x (by simp [hx])) st1
    refine ⟨st2, ?_, e2.trans e1, m2.trans m1⟩
    simp only [parseDirectives, h1, h2]

/-- Valid claims whose keys are new and pairwise distinct are all accepted; the mapping
gains their entries in order, and the uniqueness set gains their keys. -/
theorem parseArgs_valid {claims : List Claim}
    (hvalid : ∀ cl ∈ claims, ValidClaim cl.1 cl.2.1 cl.2.2) (st : ParseState)
    (hfresh : ∀ cl ∈ claims, st.resourceGroupSet.get? cl.key = none)
    (hnodup : (claims.map Claim.key).Nodup) :
    ∃ st1, parseArgs st (claims.map Claim.token) = .ok st1 ∧
      (∀ k, (st1.resourceGroupSet.get? k).isSome ↔
        (st.resourceGroupSet.get? k).isSome ∨ k ∈ claims.map Claim.key) ∧
      st1.env = st.env ∧ st1.azureEnv = st.azureEnv ∧ st1.fall = st.fall := by
  induction claims generalizing st with
  | nil => exact ⟨st, rfl, by simp, rfl, rfl, rfl⟩
  | cons cl rest ih =>
    have hcl := hvalid cl (by simp)
    have hstep : parseArg st cl.token = .ok (st.claim cl.1 cl.2.1 cl.2.2) := by
      have hnone := hfresh cl (by simp)
      simp only [Claim.key] at hnone
      rw [Claim.token, parseArg_valid st hcl, hnone]
      simp
    simp only [List.map_cons, List.nodup_cons] at hnodup
    have hfresh1 : ∀ x ∈ rest, (st.claim cl.1 cl.2.1 cl.2.2).resourceGroupSet.get? x.key
        = none := by
      intro x hx
      have hne : cl.1 ++ cl.2.1 ≠ x.key := by
        intro heq
        exact hnodup.1 (by rw [show cl.key = x.key from heq]; exact List.mem_map_of_mem _ hx)
      simp only [ParseState.claim]
      rw [GoMap.get?_set_ne _ _ _ _ hne]
      exact hfresh x (by simp [hx])
    obtain ⟨st1, h1, hset, e1, e2, e3⟩ :=
      ih (fun x hx => hvalid x (by simp [hx])) (st.claim cl.1 cl.2.1 cl.2.2) hfresh1 hnodup.2
    refine ⟨st1, ?_, ?_, e1, e2, e3⟩
    · simp only [List.map_cons, parseArgs, hstep, h1]
    · intro k
      rw [hset k]
      simp only [ParseState.claim, List.map_cons, List.mem_cons]
      by_cases hk : cl.1 ++ cl.2.1 = k
      · subst hk
        simp [GoMap.get?_set_self, Claim.key]
      · rw [GoMap.get?_set_ne _ _ _ _ hk]
        have : ¬ k = cl.key := fun e => hk (by rw [e]; rfl)
        simp [this]

end azure

namespace azure

theorem allArgs_claimStanza (cfg : List (List Claim × List (List String))) :
    allArgs (cfg.map claimStanza) = (claimsOf cfg).map Claim.token := by
  induction cfg with
  | nil => rfl
  | cons s rest ih =>
    simp only [allArgs, List.map_cons, List.flatMap_cons, claimsOf, List.map_append] at ih ⊢
    rw [ih]
    rfl

/-- A configuration of valid claims with new, pairwise distinct keys and valid directives
runs to its end. -/
theorem parseStanzas_valid (h : Collab) (cfg : List (List Claim × List (List String)))
    (st : ParseState)
    (hvalid : ∀ cl ∈ claimsOf cfg, ValidClaim cl.1 cl.2.1 cl.2.2)
    (hfresh : ∀ cl ∈ claimsOf cfg, st.resourceGroupSet.get? cl.key = none)
    (hnodup : ((claimsOf cfg).map Claim.key).Nodup)
    (hdirs : ∀ d ∈ allDirectives (cfg.map claimStanza), ValidDirective h d) :
    ∃ st1, parseStanzas h st (cfg.map claimStanza) = .ok st1 := by
  induction cfg generalizing st with
  | nil => exact ⟨st, rfl⟩
  | cons s rest ih =>
    simp only [claimsOf, List.flatMap_cons, List.mem_append, List.map_append] at hvalid hfresh hnodup
    rw [List.nodup_append] at hnodup
    obtain ⟨hn1, hn2, hdisj⟩ := hnodup
    obtain ⟨st1, h1, hset, _, _, _⟩ :=
      parseArgs_valid (fun cl hcl => hvalid cl (Or.inl hcl)) st
        (fun cl hcl => hfresh cl (Or.inl hcl)) hn1
    have hd1 : ∀ d ∈ s.2.flatMap lineDirectives, ValidDirective h d := by
      intro d hd
      apply hdirs d
      simp only [allDirectives, List.map_cons, List.flatMap_cons, List.mem_append]
      exact Or.inl hd
    obtain ⟨st2, h2, eset, _⟩ := parseDirectives_valid hd1 st1
    have hfresh2 : ∀ cl ∈ claimsOf rest, st2.resourceGroupSet.get? cl.key = none := by
      intro cl hcl
      have hnot : ¬ (st1.resourceGroupSet.get? cl.key).isSome := by
        rw [hset]
        rintro (hold | hnew)
        · simp [hfresh cl (Or.inr hcl)] at hold
        · exact hdisj hnew (List.mem_map_of_mem _ hcl)
      rw [eset]
      simpa using hnot
    obtain ⟨st3, h3⟩ := ih st2 (fun cl hcl => hvalid cl (Or.inr hcl)) hfresh2 hn2
      (fun d hd => hdirs d (by
        simp only [allDirectives, List.map_cons, List.flatMap_cons, List.mem_append]
        exact Or.inr hd))
    refine ⟨st3, ?_⟩
    simp only [List.map_cons, parseStanzas, parseStanza]
    have hA : parseArgs st (claimStanza s).args = .ok st1 := h1
    have hB : parseBlock h st1 (claimStanza s).block = .ok st2 := by
      rw [parseBlock_eq_directives]
      exact h2
    simp only [hA, hB, h3]

theorem owned_snoc (claims : List Claim) (cl : Claim) (rg : String) :
    owned (claims ++ [cl]) rg =
      if cl.1 = rg then some ((owned claims rg).getD [] ++ [cl.2.1 ++ ":" ++ cl.2.2])
      else owned claims rg := by
  unfold owned
  by_cases hrg : cl.1 = rg
  · simp only [List.filter_append, List.map_append, hrg, if_true]
    cases (claims.filter (fun x => decide (x.1 = rg))).map
        (fun x => x.2.1 ++ ":" ++ x.2.2) with
    | nil => simp [hrg]
    | cons e es => simp [hrg]
  · simp [List.filter_append, hrg]

/-- The mapping built by a successful run is the ownership of the claims its positional
tokens stand for. -/
theorem run_owned {h : Collab} {c : List Stanza} {st : ParseState} (hrun : run h c = .ok st) :
    ∃ claims : List Claim, allArgs c = claims.map Claim.token ∧
      (∀ cl ∈ claims, ValidClaim cl.1 cl.2.1 cl.2.2) ∧
      ∀ rg, st.resourceGroupMapping.get? rg = owned claims rg := by
  refine run_invariant h (fun st seen _ => ∃ claims : List Claim, seen = claims.map Claim.token ∧
      (∀ cl ∈ claims, ValidClaim cl.1 cl.2.1 cl.2.2) ∧
      ∀ rg, st.resourceGroupMapping.get? rg = owned claims rg) ?_ ?_ ?_ hrun
  · exact ⟨[], rfl, by simp, fun rg => by simp [ParseState.init, GoMap.get?, owned]⟩
  · rintro st st1 t seen ds ⟨claims, hseen, hv, hmap⟩ hok
    obtain ⟨rg, zone, access, ht, hvalid, _, hst⟩ := parseArg_ok_valid hok
    refine ⟨claims ++ [(rg, zone, access)], ?_, ?_, ?_⟩
    · simp [hseen, ht, Claim.token]
    · intro cl hcl
      rcases List.mem_append.mp hcl with hcl | hcl
      · exact hv cl hcl
      · simp only [List.mem_singleton] at hcl
        subst hcl
        exact hvalid
    · intro rg1
      subst hst
      rw [owned_snoc]
      simp only [ParseState.claim]
      by_cases hrg : rg = rg1
      · subst hrg
        simp [GoMap.get?_set_self, hmap]
      · simp [GoMap.get?_set_ne _ _ _ _ hrg, hrg, hmap]
  · rintro st st1 d seen ds hshape ⟨claims, hseen, hv, hmap⟩ hok
    refine ⟨claims, hseen, hv, ?_⟩
    rw [(parseDirective_claims hshape hok).2]
    exact hmap

theorem token_map_injective {a b : List Claim}
    (ha : ∀ cl ∈ a, ValidClaim cl.1 cl.2.1 cl.2.2) (hb : ∀ cl ∈ b, ValidClaim cl.1 cl.2.1 cl.2.2)
    (heq : a.map Claim.token = b.map Claim.token) : a = b := by
  induction a generalizing b with
  | nil =>
    cases b with
    | nil => rfl
    | cons y ys => simp at heq
  | cons x xs ih =>
    cases b with
    | nil => simp at heq
    | cons y ys =>
      simp only [List.map_cons, List.cons.injEq] at heq
      have hx := ha x (by simp)
      have hy := hb y (by simp)
      obtain ⟨e1, e2, e3⟩ := triplet_inj hx.1 hx.2.1 hy.1 hy.2.1 heq.1
      have hxy : x = y := Prod.ext e1 (Prod.ext e2 e3)
      rw [hxy, ih (fun cl hcl => ha cl (by simp [hcl])) (fun cl hcl => hb cl (by simp [hcl]))
        heq.2]

/-- A configuration whose positional tokens are valid claims with pairwise distinct keys
`resourceGroup ++ zoneName`, and whose directives are valid, parses without error, and the
mapping returned gives each resource group the strings `zone:access` of its claims, in
the order of the input. -/
theorem parse_valid_claims (h : Collab) (cfg : List (List Claim × List (List String)))
    (hvalid : ∀ cl ∈ claimsOf cfg, ValidClaim cl.1 cl.2.1 cl.2.2)
    (hnodup : ((claimsOf cfg).map Claim.key).Nodup)
    (hdirs : ∀ d ∈ allDirectives (cfg.map claimStanza), ValidDirective h d) :
    (parse h (cfg.map claimStanza)).err = none ∧
      ∀ rg, (parse h (cfg.map claimStanza)).resourceGroupMapping.get? rg
        = owned (claimsOf cfg) rg := by
  obtain ⟨st, hrun⟩ := parseStanzas_valid h cfg ParseState.init hvalid
    (fun cl _ => by simp [ParseState.init, GoMap.get?]) hnodup hdirs
  have hrun1 : run h (cfg.map claimStanza) = .ok st := hrun
  rw [parse_of_run_ok hrun1]
  refine ⟨rfl, ?_⟩
  obtain ⟨claims, hargs, hv, hmap⟩ := run_owned hrun1
  rw [allArgs_claimStanza] at hargs
  have hclaims : claimsOf cfg = claims := token_map_injective hvalid hv hargs
  intro rg
  rw [hclaims]
  exact hmap rg

end azure

namespace azure

/-! ## Errors raised inside a block -/

/-- When the token after `line0` stands in keyword position, running a longer line is
running `line0` and then the rest. -/
theorem parseLine_append_of_pos (h : Collab) (line0 : List String) :
    ∀ (k : String) (st st1 : ParseState) (rest : List String),
      lineDirectives (line0 ++ [k]) = lineDirectives line0 ++ [(k, [])] →
      parseLine h st line0 = .ok st1 →
      parseLine h st (line0 ++ rest) = parseLine h st1 rest := by
  induction line0 using lineDirectives.induct with
  | case1 =>
    intro k st st1 rest _ hok
    simp only [parseLine] at hok
    injection hok with hst
    simp [hst]
  | case2 v hv =>
    intro k st st1 rest hpos _
    simp [lineDirectives, hv] at hpos
  | case3 v hv v1 more ih =>
    intro k st st1 rest hpos hok
    have hpos1 : lineDirectives (more ++ [k]) = lineDirectives more ++ [(k, [])] := by
      simpa [lineDirectives, hv] using hpos
    simp only [singleArg, List.mem_cons, List.mem_singleton, List.not_mem_nil, or_false] at hv
    rcases hv with hv | hv | hv | hv | hv <;> subst hv
    · simp only [parseLine, List.cons_append, if_true] at hok ⊢
      exact ih k _ st1 rest hpos1 hok
    · simp [parseLine] at hok ⊢
      exact ih k _ st1 rest hpos1 hok
    · simp [parseLine] at hok ⊢
      exact ih k _ st1 rest hpos1 hok
    · simp [parseLine] at hok ⊢
      exact ih k _ st1 rest hpos1 hok
    · cases hres : h.EnvironmentFromName v1 with
      | error msg => simp [parseLine, hres] at hok
      | ok e =>
        simp [parseLine, hres] at hok ⊢
        exact ih k _ st1 rest hpos1 hok
  | case4 more _ =>
    intro k st st1 rest hpos _
    cases more <;> simp [lineDirectives, singleArg] at hpos
  | case5 v more hv hfall _ =>
    intro k st st1 rest _ hok
    simp only [singleArg, List.mem_cons, List.mem_singleton, List.not_mem_nil, or_false,
      not_or] at hv
    cases more <;> simp [parseLine, hv, hfall] at hok

/-- The states reached before and after the last line of the last block. -/
theorem run_before_last_line {h : Collab} {pre : List Stanza} {args : List String}
    {block1 : List (List String)} {line0 : List String} {st : ParseState}
    (hrun : run h (pre ++ [⟨args, block1 ++ [line0]⟩]) = .ok st) :
    ∃ st0 st1 st2, parseStanzas h ParseState.init pre = .ok st0 ∧
      parseArgs st0 args = .ok st1 ∧ parseBlock h st1 block1 = .ok st2 ∧
      parseLine h st2 line0 = .ok st := by
  obtain ⟨st0, st1, h0, h1, h2⟩ := run_before_line hrun
  obtain ⟨st2, h3, h4⟩ := parseBlock_append_inv h2
  refine ⟨st0, st1, st2, h0, h1, h3, ?_⟩
  simp only [parseBlock] at h4
  cases hl : parseLine h st2 line0 with
  | error e => simp [hl] at h4
  | ok st3 =>
    simp only [hl] at h4
    injection h4 with h5
    rw [h5]

/-- A run whose last line succeeds, from the states reached before it. -/
theorem run_line_ok_of {h : Collab} {pre : List Stanza} {args : List String}
    {block1 : List (List String)} {st0 st1 st2 st3 : ParseState}
    (h0 : parseStanzas h ParseState.init pre = .ok st0) (h1 : parseArgs st0 args = .ok st1)
    (h2 : parseBlock h st1 block1 = .ok st2)
    {line : List String} (hline : parseLine h st2 line = .ok st3) :
    run h (pre ++ [⟨args, block1 ++ [line]⟩]) = .ok st3 := by
  unfold run
  rw [parseStanzas_append_ok _ h0]
  simp only [parseStanzas, parseStanza, h1]
  rw [parseBlock_append_ok _ h2]
  simp only [parseBlock, hline]

theorem parseLine_unknown (h : Collab) (st : ParseState) {k : String} (rest : List String)
    (hk : k ∉ singleArg) (hfall : k ≠ "fallthrough") :
    parseLine h st (k :: rest) = .error (st, .Errf "unknown property: %q" k) := by
  simp only [singleArg, List.mem_cons, List.mem_singleton, List.not_mem_nil, or_false,
    not_or] at hk
  cases rest <;> simp [parseLine, hk, hfall]

/-- C11: when a token `k` that is none of the six keywords stands in keyword position in a
block, and the configuration cut just before it parses without error, `parse` fails with
the error `unknown property` carrying `k` itself, whatever follows. -/
theorem C11_unknown_directive (h : Collab) (pre : List Stanza) (args : List String)
    (block1 block2 : List (List String)) (line0 rest : List String) (k : String)
    (post : List Stanza)
    (hk : k ∉ ["subscription", "tenant", "client", "secret", "environment", "fallthrough"])
    (hpos : lineDirectives (line0 ++ [k]) = lineDirectives line0 ++ [(k, [])])
    (hacc : (parse h (pre ++ [⟨args, block1 ++ [line0]⟩])).err = none) :
    (parse h (pre ++ ⟨args, block1 ++ (line0 ++ k :: rest) :: block2⟩ :: post)).err =
      some (.Errf "unknown property: %q" k) := by
  obtain ⟨st, hrun⟩ := run_ok_of_parse hacc
  obtain ⟨st0, st1, st2, h0, h1, h2, hline0⟩ := run_before_last_line hrun
  have hk1 : k ∉ singleArg ∧ k ≠ "fallthrough" := by
    simp only [List.mem_cons, List.mem_singleton, List.not_mem_nil, or_false, not_or] at hk
    simp [singleArg, hk]
  have herr : parseLine h st2 (line0 ++ k :: rest) =
      .error (st, .Errf "unknown property: %q" k) := by
    rw [parseLine_append_of_pos h line0 k st2 st (k :: rest) hpos hline0]
    exact parseLine_unknown h st rest hk1.1 hk1.2
  rw [parse_of_run_error (run_line_error_of h0 h1 h2 herr block2 post)]

/-- C11 at a concrete configuration: `Subscription`, with a capital, is not a keyword. -/
theorem C11_unknown_directive_witness :
    "Subscription" ∉ ["subscription", "tenant", "client", "secret", "environment",
      "fallthrough"] ∧
    lineDirectives (["tenant", "ten1"] ++ ["Subscription"]) =
      lineDirectives ["tenant", "ten1"] ++ [("Subscription", [])] ∧
    (parse demo ([] ++ [⟨["rg1:example.com:public"],
      [["client", "cli1"]] ++ [["tenant", "ten1"]]⟩])).err = none ∧
    (parse demo ([] ++ ⟨["rg1:example.com:public"],
        [["client", "cli1"]] ++ (["tenant", "ten1"] ++ "Subscription" :: ["sub1"]) ::
          [["secret"]]⟩ :: [⟨["bad"], []⟩])).err =
      some (.Errf "unknown property: %q" "Subscription") :=
  ⟨by decide, by decide, by decide,
   C11_unknown_directive demo [] ["rg1:example.com:public"] [["client", "cli1"]]
     [["secret"]] ["tenant", "ten1"] ["sub1"] "Subscription" [⟨["bad"], []⟩]
     (by decide) (by decide) (by decide)⟩

/-- C12: let `environment name` stand in keyword position in a block, the configuration cut
just before it parsing without error. When the resolver rejects `name` with the message
`msg`, `parse` fails with the error `cannot set azure environment` carrying `msg`, whatever
follows. When the resolver returns the descriptor `e`, the configuration cut just after the
directive parses without error and returns `e` as its environment, with the endpoint of `e`
as resource-manager endpoint. -/
theorem C12_environment_resolution (h : Collab) (pre : List Stanza) (args : List String)
    (block1 block2 : List (List String)) (line0 rest : List String) (name : String)
    (post : List Stanza)
    (hpos : lineDirectives (line0 ++ ["environment"]) =
      lineDirectives line0 ++ [("environment", [])])
    (hacc : (parse h (pre ++ [⟨args, block1 ++ [line0]⟩])).err = none) :
    (∀ msg, h.EnvironmentFromName name = .error msg →
      (parse h (pre ++
          ⟨args, block1 ++ (line0 ++ "environment" :: name :: rest) :: block2⟩ :: post)).err =
        some (.Errf "cannot set azure environment: %q" msg)) ∧
    (∀ e, h.EnvironmentFromName name = .ok e →
      (parse h (pre ++ [⟨args, block1 ++ [line0 ++ ["environment", name]]⟩])).err = none ∧
      (parse h (pre ++ [⟨args, block1 ++ [line0 ++ ["environment", name]]⟩])).env.Environment
        = e ∧
      (parse h (pre ++ [⟨args, block1 ++ [line0 ++ ["environment", name]]⟩])).env.Values.get?
        auth.Resource = some e.ResourceManagerEndpoint) := by
  obtain ⟨st, hrun⟩ := run_ok_of_parse hacc
  obtain ⟨st0, st1, st2, h0, h1, h2, hline0⟩ := run_before_last_line hrun
  constructor
  · intro msg hres
    have herr : parseLine h st2 (line0 ++ "environment" :: name :: rest) =
        .error (st.setValue auth.ClientSecret name,
          .Errf "cannot set azure environment: %q" msg) := by
      rw [parseLine_append_of_pos h line0 _ st2 st _ hpos hline0]
      simp [parseLine, hres]
    rw [parse_of_run_error (run_line_error_of h0 h1 h2 herr block2 post)]
  · intro e hres
    have hline : parseLine h st2 (line0 ++ ["environment", name]) =
        .ok { st.setValue auth.ClientSecret name with azureEnv := e } := by
      rw [parseLine_append_of_pos h line0 _ st2 st _ hpos hline0]
      simp [parseLine, hres]
    rw [parse_of_run_ok (run_line_ok_of h0 h1 h2 hline)]
    exact ⟨rfl, rfl, GoMap.get?_set_self _ _ _⟩

/-- C12 at a concrete configuration: `unknowncloud` is rejected, `AzureChinaCloud` is
resolved. -/
theorem C12_environment_resolution_witness :
    (parse demo ([] ++ [⟨["rg1:example.com:public"],
      [["client", "cli1"]] ++ [["tenant", "ten1"]]⟩])).err = none ∧
    (parse demo ([] ++ ⟨["rg1:example.com:public"], [["client", "cli1"]] ++
        (["tenant", "ten1"] ++ "environment" :: "unknowncloud" :: []) :: []⟩ :: [])).err =
      some (.Errf "cannot set azure environment: %q"
        "autorest/azure: There is no cloud environment matching the name unknowncloud") ∧
    (parse demo ([] ++ [⟨["rg1:example.com:public"], [["client", "cli1"]] ++
        [["tenant", "ten1"] ++ ["environment", "AzureChinaCloud"]]⟩])).env.Values.get?
        auth.Resource = some "https://management.chinacloudapi.cn/" :=
  ⟨by decide,
   (C12_environment_resolution demo [] ["rg1:example.com:public"] [["client", "cli1"]] []
     ["tenant", "ten1"] [] "unknowncloud" [] (by decide) (by decide)).1
       "autorest/azure: There is no cloud environment matching the name unknowncloud" rfl,
   ((C12_environment_resolution demo [] ["rg1:example.com:public"] [["client", "cli1"]] []
     ["tenant", "ten1"] [] "AzureChinaCloud" [] (by decide) (by decide)).2
       { Name := "AzureChinaCloud",
         ResourceManagerEndpoint := "https://management.chinacloudapi.cn/" } rfl).2.2⟩

end azure

namespace azure

/-! ## When `parse` succeeds -/

/-- The claims accepted by a successful run have pairwise distinct keys, and these keys
make up the uniqueness set. -/
theorem run_keys_nodup {h : Collab} {c : List Stanza} {st : ParseState}
    (hrun : run h c = .ok st) :
    ∃ claims : List Claim, allArgs c = claims.map Claim.token ∧
      (∀ cl ∈ claims, ValidClaim cl.1 cl.2.1 cl.2.2) ∧ (claims.map Claim.key).Nodup ∧
      ∀ k, (st.resourceGroupSet.get? k).isSome ↔ k ∈ claims.map Claim.key := by
  refine run_invariant h (fun st seen _ => ∃ claims : List Claim, seen = claims.map Claim.token ∧
      (∀ cl ∈ claims, ValidClaim cl.1 cl.2.1 cl.2.2) ∧ (claims.map Claim.key).Nodup ∧
      ∀ k, (st.resourceGroupSet.get? k).isSome ↔ k ∈ claims.map Claim.key) ?_ ?_ ?_ hrun
  · exact ⟨[], rfl, by simp, by simp, fun k => by simp [ParseState.init, GoMap.get?]⟩
  · rintro st st1 t seen ds ⟨claims, hseen, hv, hnodup, hset⟩ hok
    obtain ⟨rg, zone, access, ht, hvalid, hfresh, hst⟩ := parseArg_ok_valid hok
    have hnotin : rg ++ zone ∉ claims.map Claim.key := by
      rw [← hset]
      simp [hfresh]
    refine ⟨claims ++ [(rg, zone, access)], ?_, ?_, ?_, ?_⟩
    · simp [hseen, ht, Claim.token]
    · intro cl hcl
      rcases List.mem_append.mp hcl with hcl | hcl
      · exact hv cl hcl
      · simp only [List.mem_singleton] at hcl
        subst hcl
        exact hvalid
    · rw [List.map_append, List.nodup_append]
      refine ⟨hnodup, by simp, ?_⟩
      intro k hk1 hk2
      simp only [List.map_cons, List.map_nil, List.mem_singleton, Claim.key] at hk2
      exact hnotin (hk2 ▸ hk1)
    · intro k
      subst hst
      simp only [ParseState.claim, List.map_append, List.map_cons, List.map_nil,
        List.mem_append, List.mem_singleton, Claim.key]
      by_cases hk : rg ++ zone = k
      · subst hk
        simp [GoMap.get?_set_self]
      · rw [GoMap.get?_set_ne _ _ _ _ hk, hset k]
        have : ¬ k = rg ++ zone := fun e => hk e.symm
        simp [this]
  · rintro st st1 d seen ds hshape ⟨claims, hseen, hv, hnodup, hset⟩ hok
    refine ⟨claims, hseen, hv, hnodup, ?_⟩
    rw [(parseDirective_claims hshape hok).1]
    exact hset

/-- The claims of a successful run: valid, with pairwise distinct keys, and owning the
mapping. -/
theorem run_claims {h : Collab} {c : List Stanza} {st : ParseState}
    (hrun : run h c = .ok st) :
    ∃ claims : List Claim, allArgs c = claims.map Claim.token ∧
      (∀ cl ∈ claims, ValidClaim cl.1 cl.2.1 cl.2.2) ∧ (claims.map Claim.key).Nodup ∧
      ∀ rg, st.resourceGroupMapping.get? rg = owned claims rg := by
  obtain ⟨claims, hargs, hv, hnodup, _⟩ := run_keys_nodup hrun
  obtain ⟨claims1, hargs1, hv1, hmap⟩ := run_owned hrun
  have heq : claims = claims1 := token_map_injective hv hv1 (hargs.symm.trans hargs1)
  subst heq
  exact ⟨claims, hargs, hv, hnodup, hmap⟩

/-- Every directive of a configuration that runs to its end is valid. -/
theorem run_directives_all_valid {h : Collab} {c : List Stanza} {st : ParseState}
    (hrun : run h c = .ok st) : ∀ d ∈ allDirectives c, ValidDirective h d := by
  refine run_invariant h (fun _ _ ds => ∀ d ∈ ds, ValidDirective h d) ?_ ?_ ?_ hrun
  · intro d hd
    simp at hd
  · intro st st1 t seen ds hI _
    exact hI
  · intro st st1 d seen ds hshape hI hok x hx
    rcases List.mem_append.mp hx with hx | hx
    · exact hI x hx
    · simp only [List.mem_singleton] at hx
      subst hx
      rcases parseDirective_ok hshape hok with ⟨v, hd, _⟩ | ⟨v, hd, _⟩ | ⟨v, hd, _⟩ |
        ⟨v, hd, _⟩ | ⟨v, e, hd, hres, _⟩ | ⟨hd, _⟩
      · subst hd
        exact Or.inl ⟨by simp [singleArg], v, rfl, by simp⟩
      · subst hd
        exact Or.inl ⟨by simp [singleArg], v, rfl, by simp⟩
      · subst hd
        exact Or.inl ⟨by simp [singleArg], v, rfl, by simp⟩
      · subst hd
        exact Or.inl ⟨by simp [singleArg], v, rfl, by simp⟩
      · subst hd
        exact Or.inl ⟨by simp [singleArg], v, rfl, fun _ => ⟨e, hres⟩⟩
      · exact Or.inr hd

/-- A configuration whose positional tokens are the tokens of a list of claims is given by
these claims, stanza by stanza. -/
theorem exists_claimStanzas (c : List Stanza) :
    ∀ claims : List Claim, allArgs c = claims.map Claim.token →
      ∃ cfg : List (List Claim × List (List String)),
        c = cfg.map claimStanza ∧ claimsOf cfg = claims := by
  induction c with
  | nil =>
    intro claims hargs
    cases claims with
    | nil => exact ⟨[], rfl, rfl⟩
    | cons x xs => simp [allArgs] at hargs
  | cons s rest ih =>
    intro claims hargs
    simp only [allArgs, List.flatMap_cons] at hargs
    obtain ⟨c1, c2, hsplit, h1, h2⟩ := List.append_eq_map_iff.mp hargs
    obtain ⟨cfg, hcfg, hclaims⟩ := ih c2 h2.symm
    refine ⟨(c1, s.block) :: cfg, ?_, ?_⟩
    · simp only [List.map_cons, claimStanza, h1, ← hcfg]
    · simp only [claimsOf, List.flatMap_cons] at hclaims ⊢
      rw [hclaims, hsplit]

/-- The configurations that `parse` accepts: the positional tokens are valid claims with
pairwise distinct keys `resourceGroup ++ zoneName`, and the directives are valid. -/
theorem parse_ok_iff (h : Collab) (c : List Stanza) :
    (parse h c).err = none ↔
      ∃ cfg : List (List Claim × List (List String)), c = cfg.map claimStanza ∧
        (∀ cl ∈ claimsOf cfg, ValidClaim cl.1 cl.2.1 cl.2.2) ∧
        ((claimsOf cfg).map Claim.key).Nodup ∧
        ∀ d ∈ allDirectives c, ValidDirective h d := by
  constructor
  · intro hok
    obtain ⟨st, hrun⟩ := run_ok_of_parse hok
    obtain ⟨claims, hargs, hv, hnodup, _⟩ := run_claims hrun
    obtain ⟨cfg, hcfg, hclaims⟩ := exists_claimStanzas c claims hargs
    exact ⟨cfg, hcfg, hclaims ▸ hv, hclaims ▸ hnodup, run_directives_all_valid hrun⟩
  · rintro ⟨cfg, hcfg, hv, hnodup, hdirs⟩
    subst hcfg
    exact (parse_valid_claims h cfg hv hnodup hdirs).1

end azure

namespace azure

/-! ## Several stanzas -/

theorem owned_getD (claims : List Claim) (rg : String) :
    (owned claims rg).getD [] =
      (claims.filter (fun cl => cl.1 = rg)).map (fun cl => cl.2.1 ++ ":" ++ cl.2.2) := by
  unfold owned
  cases (claims.filter (fun cl => decide (cl.1 = rg))).map
      (fun cl => cl.2.1 ++ ":" ++ cl.2.2) with
  | nil => rfl
  | cons e es => rfl

theorem owned_append_getD (a b : List Claim) (rg : String) :
    (owned (a ++ b) rg).getD [] = (owned a rg).getD [] ++ (owned b rg).getD [] := by
  simp only [owned_getD, List.filter_append, List.map_append]

theorem claimsOf_append (a b : List (List Claim × List (List String))) :
    claimsOf (a ++ b) = claimsOf a ++ claimsOf b := by
  simp [claimsOf]

theorem allDirectives_append (a b : List Stanza) :
    allDirectives (a ++ b) = allDirectives a ++ allDirectives b := by
  simp [allDirectives]

theorem allArgs_append (a b : List Stanza) : allArgs (a ++ b) = allArgs a ++ allArgs b := by
  simp [allArgs]

/-- The key of a valid claim whose token is `rg:zone:access`. -/
theorem key_of_token {cl : Claim} {rg zone access : String}
    (hcl : ValidClaim cl.1 cl.2.1 cl.2.2) (hrg : ':' ∉ rg.data) (hzone : ':' ∉ zone.data)
    (htoken : cl.token = triplet rg zone access) : cl.key = rg ++ zone := by
  obtain ⟨e1, e2, _⟩ := triplet_inj hcl.1 hcl.2.1 hrg hzone htoken
  simp [Claim.key, e1, e2]

/-- A successful directive is valid. -/
theorem parseDirective_ok_valid {h : Collab} {st st1 : ParseState} {d : Directive}
    (hshape : d.1 ∈ singleArg → d.2.length ≤ 1)
    (hok : parseLine h st (d.1 :: d.2) = .ok st1) : ValidDirective h d := by
  rcases parseDirective_ok hshape hok with ⟨v, hd, _⟩ | ⟨v, hd, _⟩ | ⟨v, hd, _⟩ |
    ⟨v, hd, _⟩ | ⟨v, e, hd, hres, _⟩ | ⟨hd, _⟩
  · subst hd
    exact Or.inl ⟨by simp [singleArg], v, rfl, by simp⟩
  · subst hd
    exact Or.inl ⟨by simp [singleArg], v, rfl, by simp⟩
  · subst hd
    exact Or.inl ⟨by simp [singleArg], v, rfl, by simp⟩
  · subst hd
    exact Or.inl ⟨by simp [singleArg], v, rfl, by simp⟩
  · subst hd
    exact Or.inl ⟨by simp [singleArg], v, rfl, fun _ => ⟨e, hres⟩⟩
  · exact Or.inr hd

theorem parseDirectives_ok_valid {h : Collab} {ds : List Directive}
    (hshape : ∀ d ∈ ds, d.1 ∈ singleArg → d.2.length ≤ 1) {st st1 : ParseState}
    (hok : parseDirectives h st ds = .ok st1) : ∀ d ∈ ds, ValidDirective h d := by
  induction ds generalizing st with
  | nil =>
    intro d hd
    simp at hd
  | cons x rest ih =>
    simp only [parseDirectives] at hok
    cases hstep : parseLine h st (x.1 :: x.2) with
    | error e => simp [hstep] at hok
    | ok st2 =>
      simp only [hstep] at hok
      intro d hd
      rcases List.mem_cons.mp hd with hd | hd
      · subst hd
        exact parseDirective_ok_valid (hshape d (by simp)) hstep
      · exact ih (fun y hy => hshape y (by simp [hy])) hok d hd

/-- Whether a block fails does not depend on the variables it starts from. -/
theorem parseBlock_ok_any {h : Collab} {block : List (List String)} {st0 st1 : ParseState}
    (hok : parseBlock h st0 block = .ok st1) (st : ParseState) :
    ∃ st2, parseBlock h st block = .ok st2 := by
  rw [parseBlock_eq_directives] at hok ⊢
  have hshape : ∀ d ∈ block.flatMap lineDirectives, d.1 ∈ singleArg → d.2.length ≤ 1 := by
    intro d hd
    simp only [List.mem_flatMap] at hd
    obtain ⟨line, _, hline⟩ := hd
    exact lineDirectives_shape line d hline
  obtain ⟨st2, h2, _⟩ := parseDirectives_valid (parseDirectives_ok_valid hshape hok) st
  exact ⟨st2, h2⟩

/-- Positional tokens accepted from some variables are, from any other variables, either
all accepted or stopped at a conflicting zone. -/
theorem parseArgs_ok_any {args : List String} {st0 st1 : ParseState}
    (hok : parseArgs st0 args = .ok st1) (st : ParseState) :
    (∃ st2, parseArgs st args = .ok st2) ∨
      ∃ t ∈ args, ∃ st2, parseArgs st args = .error (st2, .Errf "conflicting zone: %q" t) := by
  induction args generalizing st0 st with
  | nil => exact Or.inl ⟨st, rfl⟩
  | cons t rest ih =>
    simp only [parseArgs] at hok
    cases hstep : parseArg st0 t with
    | error e => simp [hstep] at hok
    | ok st3 =>
      simp only [hstep] at hok
      obtain ⟨rg, zone, access, ht, hvalid, _, _⟩ := parseArg_ok_valid hstep
      subst ht
      simp only [parseArgs, parseArg_valid st hvalid]
      by_cases hk : (st.resourceGroupSet.get? (rg ++ zone)).isSome
      · exact Or.inr ⟨triplet rg zone access, by simp, st, by simp [hk]⟩
      · simp only [hk]
        rcases ih hok (st.claim rg zone access) with ⟨st2, h2⟩ | ⟨t1, ht1, st2, h2⟩
        · exact Or.inl ⟨st2, by simpa using h2⟩
        · exact Or.inr ⟨t1, by simp [ht1], st2, by simpa using h2⟩

/-- Stanzas accepted from some variables are, from any other variables, either all
accepted or stopped at a conflicting zone. -/
theorem parseStanzas_ok_any {h : Collab} {c : List Stanza} {st0 st1 : ParseState}
    (hok : parseStanzas h st0 c = .ok st1) (st : ParseState) :
    (∃ st2, parseStanzas h st c = .ok st2) ∨
      ∃ t ∈ allArgs c, ∃ st2,
        parseStanzas h st c = .error (st2, .Errf "conflicting zone: %q" t) := by
  induction c generalizing st0 st with
  | nil => exact Or.inl ⟨st, rfl⟩
  | cons s rest ih =>
    simp only [parseStanzas, parseStanza] at hok
    cases hA : parseArgs st0 s.args with
    | error e => simp [hA] at hok
    | ok st3 =>
      simp only [hA] at hok
      cases hB : parseBlock h st3 s.block with
      | error e => simp [hB] at hok
      | ok st4 =>
        simp only [hB] at hok
        simp only [parseStanzas, parseStanza, allArgs, List.flatMap_cons, List.mem_append]
        rcases parseArgs_ok_any hA st with ⟨st5, h5⟩ | ⟨t, ht, st5, h5⟩
        · obtain ⟨st6, h6⟩ := parseBlock_ok_any hB st5
          simp only [h5, h6]
          rcases ih hok st6 with ⟨st7, h7⟩ | ⟨t, ht, st7, h7⟩
          · exact Or.inl ⟨st7, h7⟩
          · exact Or.inr ⟨t, Or.inr ht, st7, h7⟩
        · exact Or.inr ⟨t, Or.inl ht, st5, by simp only [h5]⟩

end azure

namespace azure

/-- A configuration that parses splits, at any point between two stanzas, into two
configurations given by valid claims with keys distinct within and across the two parts,
and by valid directives. -/
theorem parse_append_ok {h : Collab} {A B : List Stanza}
    (hok : (parse h (A ++ B)).err = none) :
    ∃ cfgA cfgB : List (List Claim × List (List String)),
      A = cfgA.map claimStanza ∧ B = cfgB.map claimStanza ∧
      (∀ cl ∈ claimsOf cfgA ++ claimsOf cfgB, ValidClaim cl.1 cl.2.1 cl.2.2) ∧
      ((claimsOf cfgA).map Claim.key).Nodup ∧ ((claimsOf cfgB).map Claim.key).Nodup ∧
      List.Disjoint ((claimsOf cfgA).map Claim.key) ((claimsOf cfgB).map Claim.key) ∧
      (∀ d ∈ allDirectives A ++ allDirectives B, ValidDirective h d) := by
  obtain ⟨cfg, hcfg, hv, hnodup, hdirs⟩ := (parse_ok_iff h (A ++ B)).mp hok
  obtain ⟨cfgA, cfgB, hsplit, hA, hB⟩ := List.append_eq_map_iff.mp hcfg
  subst hsplit
  rw [claimsOf_append] at hv hnodup
  rw [List.map_append, List.nodup_append] at hnodup
  rw [allDirectives_append] at hdirs
  exact ⟨cfgA, cfgB, hA.symm, hB.symm, hv, hnodup.1, hnodup.2.1, hnodup.2.2, hdirs⟩

/-- A pair claimed in both parts makes the whole configuration fail. -/
theorem shared_pair_rejected {h : Collab} {A B : List Stanza} {rg zone a1 a2 : String}
    (hrg : ':' ∉ rg.data) (hzone : ':' ∉ zone.data)
    (h1 : triplet rg zone a1 ∈ allArgs A) (h2 : triplet rg zone a2 ∈ allArgs B) :
    (parse h (A ++ B)).err ≠ none := by
  intro hok
  obtain ⟨cfgA, cfgB, hA, hB, hv, _, _, hdisj, _⟩ := parse_append_ok hok
  subst hA hB
  rw [allArgs_claimStanza, List.mem_map] at h1 h2
  obtain ⟨cl1, hm1, ht1⟩ := h1
  obtain ⟨cl2, hm2, ht2⟩ := h2
  have hk1 := key_of_token (hv cl1 (by simp [hm1])) hrg hzone ht1
  have hk2 := key_of_token (hv cl2 (by simp [hm2])) hrg hzone ht2
  have m1 : rg ++ zone ∈ (claimsOf cfgA).map Claim.key := by
    rw [← hk1]
    exact List.mem_map_of_mem _ hm1
  have m2 : rg ++ zone ∈ (claimsOf cfgB).map Claim.key := by
    rw [← hk2]
    exact List.mem_map_of_mem _ hm2
  exact hdisj m1 m2

/-- C14: when `A ++ B` parses without error, so do `A` alone and `B` alone; the positional
tokens of `A` and of `B` are the tokens of valid claims, the mapping of `A` gives every
resource group the strings `zone:access` of its claims of `A` in input order, the mapping of
`B` those of `B`, and the mapping of `A ++ B` those of `A` followed by those of `B`: the
sequence of `A ++ B` is the sequence of `A` followed by the sequence of `B` (a resource
group absent from a mapping has the empty sequence). When `A` and `B` each parse alone and a
token of `A` and a token of `B` carry the same resource group and zone, `A ++ B` fails with
the conflicting-zone error at a token of `B`. -/
theorem C14_stanzas_accumulate (h : Collab) (A B : List Stanza) :
    ((parse h (A ++ B)).err = none →
      (parse h A).err = none ∧ (parse h B).err = none ∧
      ∃ claimsA claimsB : List Claim,
        allArgs A = claimsA.map Claim.token ∧ allArgs B = claimsB.map Claim.token ∧
        (∀ cl ∈ claimsA ++ claimsB, ValidClaim cl.1 cl.2.1 cl.2.2) ∧
        ∀ rg,
          (parse h A).resourceGroupMapping.get? rg = owned claimsA rg ∧
          (parse h B).resourceGroupMapping.get? rg = owned claimsB rg ∧
          (parse h (A ++ B)).resourceGroupMapping.get? rg = owned (claimsA ++ claimsB) rg ∧
          ((parse h (A ++ B)).resourceGroupMapping.get? rg).getD [] =
            ((parse h A).resourceGroupMapping.get? rg).getD [] ++
              ((parse h B).resourceGroupMapping.get? rg).getD []) ∧
    (∀ rg zone a1 a2, ':' ∉ rg.data → ':' ∉ zone.data →
      (parse h A).err = none → (parse h B).err = none →
      triplet rg zone a1 ∈ allArgs A → triplet rg zone a2 ∈ allArgs B →
      ∃ t ∈ allArgs B, (parse h (A ++ B)).err = some (.Errf "conflicting zone: %q" t)) := by
  constructor
  · intro hok
    obtain ⟨cfgA, cfgB, hA, hB, hv, hnA, hnB, hdisj, hdirs⟩ := parse_append_ok hok
    subst hA hB
    have pA := parse_valid_claims h cfgA (fun cl hcl => hv cl (by simp [hcl])) hnA
      (fun d hd => hdirs d (by simp [hd]))
    have pB := parse_valid_claims h cfgB (fun cl hcl => hv cl (by simp [hcl])) hnB
      (fun d hd => hdirs d (by simp [hd]))
    have pAB := parse_valid_claims h (cfgA ++ cfgB)
      (by rw [claimsOf_append]; exact hv)
      (by rw [claimsOf_append, List.map_append, List.nodup_append]; exact ⟨hnA, hnB, hdisj⟩)
      (by rw [List.map_append, allDirectives_append]; exact hdirs)
    rw [List.map_append, claimsOf_append] at pAB
    refine ⟨pA.1, pB.1, claimsOf cfgA, claimsOf cfgB, allArgs_claimStanza cfgA,
      allArgs_claimStanza cfgB, hv, fun rg => ⟨pA.2 rg, pB.2 rg, pAB.2 rg, ?_⟩⟩
    rw [pAB.2 rg, pA.2 rg, pB.2 rg, owned_append_getD]
  · intro rg zone a1 a2 hrg hzone hA hB h1 h2
    obtain ⟨stA, hrunA⟩ := run_ok_of_parse hA
    obtain ⟨stB, hrunB⟩ := run_ok_of_parse hB
    have hrun : run h (A ++ B) = parseStanzas h stA B := parseStanzas_append_ok B hrunA
    rcases parseStanzas_ok_any hrunB stA with ⟨st2, hst2⟩ | ⟨t, ht, st2, hst2⟩
    · exfalso
      apply shared_pair_rejected (h := h) hrg hzone h1 h2
      rw [parse_of_run_ok (hrun.trans hst2)]
    · exact ⟨t, ht, by rw [parse_of_run_error (hrun.trans hst2)]⟩

/-- C14 at concrete configurations: two stanzas and then a third accumulate, `rg1` owning
`example.com:public` from the first part and `internal.example.com:private` from the
second; a stanza followed by one that claims `rg1:example.com` again conflicts. -/
theorem C14_stanzas_accumulate_witness :
    ((parse demo ([⟨["rg1:example.com:public", "rg2:b.org:private"], [["tenant", "ten1"]]⟩,
          ⟨["rg2:c.org:public"], []⟩] ++
        [⟨["rg1:internal.example.com:private", "rg3:d.org:public"], [["fallthrough"]]⟩])).err
        = none ∧
      (∃ claimsA claimsB : List Claim,
        allArgs [⟨["rg1:example.com:public", "rg2:b.org:private"], [["tenant", "ten1"]]⟩,
          ⟨["rg2:c.org:public"], []⟩] = claimsA.map Claim.token ∧
        allArgs [⟨["rg1:internal.example.com:private", "rg3:d.org:public"],
          [["fallthrough"]]⟩] = claimsB.map Claim.token ∧
        (parse demo ([⟨["rg1:example.com:public", "rg2:b.org:private"],
            [["tenant", "ten1"]]⟩, ⟨["rg2:c.org:public"], []⟩] ++
          [⟨["rg1:internal.example.com:private", "rg3:d.org:public"],
            [["fallthrough"]]⟩])).resourceGroupMapping.get? "rg1"
          = owned (claimsA ++ claimsB) "rg1") ∧
      (parse demo ([⟨["rg1:example.com:public", "rg2:b.org:private"], [["tenant", "ten1"]]⟩,
          ⟨["rg2:c.org:public"], []⟩] ++
        [⟨["rg1:internal.example.com:private", "rg3:d.org:public"],
          [["fallthrough"]]⟩])).resourceGroupMapping.get? "rg1" =
        some ["example.com:public", "internal.example.com:private"]) ∧
    (∃ t ∈ allArgs [⟨["rg2:b.org:private", "rg1:example.com:private"], []⟩],
      (parse demo ([⟨["rg1:example.com:public"], []⟩] ++
        [⟨["rg2:b.org:private", "rg1:example.com:private"], []⟩])).err =
          some (.Errf "conflicting zone: %q" t)) :=
  ⟨⟨by decide,
    by
      obtain ⟨claimsA, claimsB, hA, hB, _, hmap⟩ := ((C14_stanzas_accumulate demo
        [⟨["rg1:example.com:public", "rg2:b.org:private"], [["tenant", "ten1"]]⟩,
          ⟨["rg2:c.org:public"], []⟩]
        [⟨["rg1:internal.example.com:private", "rg3:d.org:public"], [["fallthrough"]]⟩]).1
        (by decide)).2.2
      exact ⟨claimsA, claimsB, hA, hB, (hmap "rg1").2.2.1⟩,
    by decide⟩,
   (C14_stanzas_accumulate demo [⟨["rg1:example.com:public"], []⟩]
      [⟨["rg2:b.org:private", "rg1:example.com:private"], []⟩]).2
      "rg1" "example.com" "public" "private" (by decide) (by decide) (by decide) (by decide)
      (by decide) (by decide)⟩

end azure

namespace GoMap

theorem keys_set {V : Type} (m : GoMap V) (k : String) (v : V) :
    (m.set k v).map Prod.fst =
      if k ∈ m.map Prod.fst then m.map Prod.fst else m.map Prod.fst ++ [k] := by
  induction m with
  | nil => simp [set]
  | cons p rest ih =>
    obtain ⟨k1, v1⟩ := p
    by_cases hk : k1 = k
    · subst hk
      simp [set]
    · have hk1 : ¬ k = k1 := fun e => hk e.symm
      simp only [set, hk, if_false, List.map_cons, ih, List.mem_cons, hk1, false_or]
      by_cases hmem : k ∈ rest.map Prod.fst
      · simp only [hmem, if_true]
      · simp only [hmem, if_false, List.cons_append]

theorem keys_set_nodup {V : Type} (m : GoMap V) (k : String) (v : V)
    (hm : (m.map Prod.fst).Nodup) : ((m.set k v).map Prod.fst).Nodup := by
  rw [keys_set]
  by_cases hmem : k ∈ m.map Prod.fst
  · simp only [hmem, if_true]
    exact hm
  · simp only [hmem, if_false]
    rw [List.nodup_append]
    refine ⟨hm, by simp, ?_⟩
    intro x hx1 hx2
    simp only [List.mem_singleton] at hx2
    exact hmem (hx2 ▸ hx1)

/-- With one entry per key, every entry of the map is what the lookup of its key gives. -/
theorem get?_of_mem {V : Type} (m : GoMap V) (hm : (m.map Prod.fst).Nodup)
    {k : String} {v : V} (hmem : (k, v) ∈ m) : m.get? k = some v := by
  induction m with
  | nil => simp at hmem
  | cons p rest ih =>
    obtain ⟨k1, v1⟩ := p
    simp only [List.map_cons, List.nodup_cons] at hm
    rcases List.mem_cons.mp hmem with heq | hrest
    · injection heq with e1 e2
      subst e1 e2
      simp [get?]
    · have hne : k1 ≠ k := by
        intro e
        subst e
        exact hm.1 (List.mem_map_of_mem Prod.fst hrest)
      simp only [get?, hne, if_false]
      exact ih hm.2 hrest

end GoMap

namespace azure

/-! ## The shape of the mapping -/

/-- The mapping built by a successful run has one entry per resource group. -/
theorem run_mapping_keys {h : Collab} {c : List Stanza} {st : ParseState}
    (hrun : run h c = .ok st) : (st.resourceGroupMapping.map Prod.fst).Nodup := by
  refine run_invariant h (fun st _ _ => (st.resourceGroupMapping.map Prod.fst).Nodup)
    ?_ ?_ ?_ hrun
  · simp [ParseState.init]
  · intro st st1 t seen ds hI hok
    obtain ⟨rg, zone, access, _, _, _, hst⟩ := parseArg_ok_valid hok
    subst hst
    exact GoMap.keys_set_nodup _ _ _ hI
  · intro st st1 d seen ds hshape hI hok
    rw [(parseDirective_claims hshape hok).2]
    exact hI

/-- Two strings `zone:access` with colon-free zones are equal only part by part. -/
theorem entry_inj {z1 a1 z2 a2 : String} (h1 : ':' ∉ z1.data) (h2 : ':' ∉ z2.data)
    (heq : z1 ++ ":" ++ a1 = z2 ++ ":" ++ a2) : z1 = z2 ∧ a1 = a2 := by
  have hdata := congrArg String.data heq
  simp only [String.data_append, List.append_assoc] at hdata
  have c1 := strings.cut_append a1.data h1
  have c2 := strings.cut_append a2.data h2
  simp only [List.singleton_append] at hdata
  rw [hdata, c2] at c1
  simp only [Option.some.injEq, Prod.mk.injEq] at c1
  exact ⟨String.ext c1.1.symm, String.ext c1.2.symm⟩

theorem owned_some {claims : List Claim} {rg : String} {l : List String}
    (hl : owned claims rg = some l) :
    l ≠ [] ∧
      l = (claims.filter (fun cl => cl.1 = rg)).map (fun cl => cl.2.1 ++ ":" ++ cl.2.2) := by
  have hget := owned_getD claims rg
  rw [hl] at hget
  simp only [Option.getD_some] at hget
  refine ⟨?_, hget⟩
  unfold owned at hl
  cases hlist : (claims.filter (fun cl => decide (cl.1 = rg))).map
      (fun cl => cl.2.1 ++ ":" ++ cl.2.2) with
  | nil => simp [hlist] at hl
  | cons e es =>
    rw [hget, hlist]
    simp

/-- The zones of one resource group, among valid claims with distinct keys, are distinct. -/
theorem zones_nodup {claims : List Claim} (hnodup : (claims.map Claim.key).Nodup)
    (rg : String) :
    ((claims.filter (fun cl => cl.1 = rg)).map (fun cl => cl.2.1)).Nodup := by
  have hsub : ((claims.filter (fun cl => cl.1 = rg)).map Claim.key).Nodup :=
    List.Nodup.sublist (List.Sublist.map _ (List.filter_sublist claims)) hnodup
  have hkeys : (claims.filter (fun cl => cl.1 = rg)).map Claim.key =
      ((claims.filter (fun cl => cl.1 = rg)).map (fun cl => cl.2.1)).map (fun z => rg ++ z) := by
    rw [List.map_map]
    apply List.map_congr_left
    intro cl hcl
    have hrg : cl.1 = rg := by simpa using (List.mem_filter.mp hcl).2
    simp [Claim.key, hrg]
  rw [hkeys] at hsub
  exact List.Nodup.of_map _ hsub

end azure

namespace strings

/-- A string `zone:access` with a colon-free zone splits in two at its first colon. -/
theorem SplitN_entry (zone access : String) (hzone : ':' ∉ zone.data) :
    SplitN (zone ++ ":" ++ access) ':' 2 = [zone, access] := by
  have hdata : (zone ++ ":" ++ access).data = zone.data ++ ':' :: access.data := by
    simp [String.data_append]
  simp [SplitN, hdata, genSplit, cut_append _ hzone]

end strings

namespace azure

/-- C15: in the mapping of a successful `parse`, every stored entry is the one its key
looks up, every key is a non-empty resource group with a non-empty sequence, every entry of
a sequence is `zone ++ ":" ++ access` with `zone` non-empty and `access` equal to `public`
or `private`, the zones of one sequence are pairwise distinct, and so are its entries. -/
theorem C15_mapping_invariants (h : Collab) (c : List Stanza)
    (hok : (parse h c).err = none) :
    (∀ p ∈ (parse h c).resourceGroupMapping,
      (parse h c).resourceGroupMapping.get? p.1 = some p.2) ∧
    ∀ rg l, (parse h c).resourceGroupMapping.get? rg = some l →
      rg ≠ "" ∧ l ≠ [] ∧ l.Nodup ∧
      ∃ zs : List (String × String), l = zs.map (fun p => p.1 ++ ":" ++ p.2) ∧
        (∀ p ∈ zs, p.1 ≠ "" ∧ ':' ∉ p.1.data ∧ (p.2 = "public" ∨ p.2 = "private")) ∧
        (zs.map Prod.fst).Nodup := by
  obtain ⟨st, hrun⟩ := run_ok_of_parse hok
  rw [parse_of_run_ok hrun]
  simp only
  constructor
  · intro p hp
    exact GoMap.get?_of_mem _ (run_mapping_keys hrun) hp
  · intro rg l hl
    obtain ⟨claims, _, hv, hnodup, hmap⟩ := run_claims hrun
    rw [hmap rg] at hl
    obtain ⟨hne, hlist⟩ := owned_some hl
    have hzones := zones_nodup hnodup rg
    have hvz : ∀ p ∈ (claims.filter (fun cl => cl.1 = rg)).map (fun cl => (cl.2.1, cl.2.2)),
        p.1 ≠ "" ∧ ':' ∉ p.1.data ∧ (p.2 = "public" ∨ p.2 = "private") := by
      intro p hp
      obtain ⟨cl, hcl, hp1⟩ := List.mem_map.mp hp
      have hvalid := hv cl (List.mem_filter.mp hcl).1
      subst hp1
      exact ⟨hvalid.2.2.2.1, hvalid.2.1, hvalid.2.2.2.2⟩
    have hzs : l = ((claims.filter (fun cl => cl.1 = rg)).map
        (fun cl => (cl.2.1, cl.2.2))).map (fun p => p.1 ++ ":" ++ p.2) := by
      rw [hlist, List.map_map]
      rfl
    have hfst : ((claims.filter (fun cl => cl.1 = rg)).map
        (fun cl => (cl.2.1, cl.2.2))).map Prod.fst =
        (claims.filter (fun cl => cl.1 = rg)).map (fun cl => cl.2.1) := by
      rw [List.map_map]
      rfl
    refine ⟨?_, hne, ?_, _, hzs, hvz, hfst ▸ hzones⟩
    · have hex : ∃ cl, cl ∈ claims.filter (fun cl => cl.1 = rg) := by
        cases hf : claims.filter (fun cl => decide (cl.1 = rg)) with
        | nil =>
          rw [hf] at hlist
          exact absurd hlist hne
        | cons x xs => exact ⟨x, by simp⟩
      obtain ⟨cl, hcl⟩ := hex
      have hrg : cl.1 = rg := by simpa using (List.mem_filter.mp hcl).2
      rw [← hrg]
      exact (hv cl (List.mem_filter.mp hcl).1).2.2.1
    · rw [hzs]
      refine List.Nodup.map_on ?_ (List.Nodup.of_map Prod.fst (hfst ▸ hzones))
      intro p hp q hq heq
      obtain ⟨e1, e2⟩ := entry_inj (hvz p hp).2.1 (hvz q hq).2.1 heq
      exact Prod.ext e1 e2

/-- C15 at a concrete configuration. -/
theorem C15_mapping_invariants_witness :
    (parse demo [⟨["rg1:example.com:public", "rg2:example.com:private"], []⟩,
      ⟨["rg1:internal.example.com:private"], [["tenant", "ten1"]]⟩]).err = none ∧
    (parse demo [⟨["rg1:example.com:public", "rg2:example.com:private"], []⟩,
      ⟨["rg1:internal.example.com:private"], [["tenant", "ten1"]]⟩]).resourceGroupMapping.get?
        "rg1" = some ["example.com:public", "internal.example.com:private"] ∧
    ("rg1" ≠ "" ∧ ["example.com:public", "internal.example.com:private"] ≠ [] ∧
      ["example.com:public", "internal.example.com:private"].Nodup ∧
      ∃ zs : List (String × String),
        ["example.com:public", "internal.example.com:private"] =
          zs.map (fun p => p.1 ++ ":" ++ p.2) ∧
        (∀ p ∈ zs, p.1 ≠ "" ∧ ':' ∉ p.1.data ∧ (p.2 = "public" ∨ p.2 = "private")) ∧
        (zs.map Prod.fst).Nodup) :=
  ⟨by decide, by decide,
   (C15_mapping_invariants demo
     [⟨["rg1:example.com:public", "rg2:example.com:private"], []⟩,
      ⟨["rg1:internal.example.com:private"], [["tenant", "ten1"]]⟩] (by decide)).2
     "rg1" ["example.com:public", "internal.example.com:private"] (by decide)⟩

/-- C20: after a successful `parse`, every positional token splits into three parts whose
first two hold no colon; and every entry `e` stored for a resource group `rg` comes from a
token `rg:zone:access` of the input, holds exactly one colon, splits at it into `zone` and
`access`, and `rg ++ ":" ++ e` is that token. -/
theorem C20_entries_decode (h : Collab) (c : List Stanza) (hok : (parse h c).err = none) :
    (∀ t ∈ allArgs c, ∃ rg zone access,
      strings.SplitN t ':' 3 = [rg, zone, access] ∧ ':' ∉ rg.data ∧ ':' ∉ zone.data) ∧
    ∀ rg l, (parse h c).resourceGroupMapping.get? rg = some l → ∀ e ∈ l,
      ∃ zone access, triplet rg zone access ∈ allArgs c ∧ ValidClaim rg zone access ∧
        e = zone ++ ":" ++ access ∧ colons e = 1 ∧
        strings.SplitN e ':' 2 = [zone, access] ∧ rg ++ ":" ++ e = triplet rg zone access := by
  obtain ⟨st, hrun⟩ := run_ok_of_parse hok
  rw [parse_of_run_ok hrun]
  simp only
  constructor
  · intro t ht
    obtain ⟨rg, zone, access, heq, hvalid⟩ := run_args_valid hrun t ht
    exact ⟨rg, zone, access, heq ▸ strings.SplitN_triplet rg zone access hvalid.1 hvalid.2.1,
      hvalid.1, hvalid.2.1⟩
  · intro rg l hl e he
    obtain ⟨claims, hargs, hv, _, hmap⟩ := run_claims hrun
    rw [hmap rg] at hl
    obtain ⟨_, hlist⟩ := owned_some hl
    rw [hlist] at he
    obtain ⟨cl, hcl, hentry⟩ := List.mem_map.mp he
    obtain ⟨hmem, hrg⟩ := List.mem_filter.mp hcl
    have hrg1 : cl.1 = rg := by simpa using hrg
    have hvalid := hv cl hmem
    rw [hrg1] at hvalid
    refine ⟨cl.2.1, cl.2.2, ?_, hvalid, hentry.symm, ?_, ?_, ?_⟩
    · rw [hargs, ← hrg1]
      exact List.mem_map_of_mem Claim.token hmem
    · rw [← hentry]
      have hacc : cl.2.2.data.count ':' = 0 := by
        rcases hvalid.2.2.2.2 with ha | ha <;> rw [ha] <;> decide
      simp [colons, String.data_append, List.count_append,
        List.count_eq_zero_of_not_mem hvalid.2.1, hacc]
    · rw [← hentry]
      exact strings.SplitN_entry _ _ hvalid.2.1
    · rw [← hentry]
      simp [triplet, String.append_assoc]

/-- C20 at a concrete configuration. -/
theorem C20_entries_decode_witness :
    (parse demo [⟨["rg1:example.com:public", "rg2:example.com:private"], []⟩]).err = none ∧
    (parse demo [⟨["rg1:example.com:public",
        "rg2:example.com:private"], []⟩]).resourceGroupMapping.get? "rg2"
      = some ["example.com:private"] ∧
    ∃ zone access,
      triplet "rg2" zone access ∈
        allArgs [⟨["rg1:example.com:public", "rg2:example.com:private"], []⟩] ∧
      ValidClaim "rg2" zone access ∧ "example.com:private" = zone ++ ":" ++ access ∧
      colons "example.com:private" = 1 ∧
      strings.SplitN "example.com:private" ':' 2 = [zone, access] ∧
      "rg2" ++ ":" ++ "example.com:private" = triplet "rg2" zone access :=
  ⟨by decide, by decide,
   (C20_entries_decode demo [⟨["rg1:example.com:public", "rg2:example.com:private"], []⟩]
     (by decide)).2 "rg2" ["example.com:private"] (by decide) "example.com:private"
     (by simp)⟩

end azure

namespace azure

/-! ## The example, the fallthrough policy, the key collision -/

/-- C16 (counterexample): with the block written on one line as in the example, the closing
brace shares the line of `fallthrough`; `c.RemainingArgs()` takes it, and the policy is
built from the list `[example.com, }]`, not from `[example.com]`. -/
theorem C16_one_line_block_takes_brace :
    (parse demo [⟨["rg1:example.com:public", "rg1:internal.example.com:private"],
      [["subscription", "sub1", "tenant", "ten1", "client", "cli1", "secret", "s3cr3t",
        "fallthrough", "example.com", "\x7d"]]⟩]).err = none ∧
    (parse demo [⟨["rg1:example.com:public", "rg1:internal.example.com:private"],
      [["subscription", "sub1", "tenant", "ten1", "client", "cli1", "secret", "s3cr3t",
        "fallthrough", "example.com", "\x7d"]]⟩]).fall =
      ({ Zones := [] } : fall.F).SetZonesFromArgs demo.Normalize ["example.com", "\x7d"] ∧
    (parse demo [⟨["rg1:example.com:public", "rg1:internal.example.com:private"],
      [["subscription", "sub1", "tenant", "ten1", "client", "cli1", "secret", "s3cr3t",
        "fallthrough", "example.com", "\x7d"]]⟩]).fall ≠
      ({ Zones := [] } : fall.F).SetZonesFromArgs demo.Normalize ["example.com"] := by
  decide

/-- C16 (amended), with one directive per line and the closing brace on a line of its
own: the stanza with the tokens `rg1:example.com:public` and
`rg1:internal.example.com:private` and the block `subscription sub1`, `tenant ten1`,
`client cli1`, `secret s3cr3t`, `fallthrough example.com` parses without error; the mapping
is exactly `rg1` with its two entries in order, the four credentials are as given, the
environment is the public cloud with its endpoint stored, and the policy is the one built
from the zone list `[example.com]`. -/
theorem C16_end_to_end_example (h : Collab) :
    parse h [⟨["rg1:example.com:public", "rg1:internal.example.com:private"],
      [["subscription", "sub1"], ["tenant", "ten1"], ["client", "cli1"],
        ["secret", "s3cr3t"], ["fallthrough", "example.com"]]⟩] =
      { env := { Values := [(auth.SubscriptionID, "sub1"), (auth.TenantID, "ten1"),
                            (auth.ClientID, "cli1"), (auth.ClientSecret, "s3cr3t"),
                            (auth.Resource, azurerest.PublicCloud.ResourceManagerEndpoint)],
                 Environment := azurerest.PublicCloud },
        resourceGroupMapping :=
          [("rg1", ["example.com:public", "internal.example.com:private"])],
        fall := ({ Zones := [] } : fall.F).SetZonesFromArgs h.Normalize ["example.com"],
        err := none } := by
  rfl

/-- The policy after a successful run is the one built from the arguments of the last
`fallthrough` directive. -/
theorem run_fall {h : Collab} {c : List Stanza} {st : ParseState} (hrun : run h c = .ok st) :
    match lastDirective ["fallthrough"] (allDirectives c) with
    | none => st.fall = { Zones := [] }
    | some d => st.fall = ({ Zones := [] } : fall.F).SetZonesFromArgs h.Normalize d.2 := by
  refine run_invariant h (fun st _ ds =>
    match lastDirective ["fallthrough"] ds with
    | none => st.fall = { Zones := [] }
    | some d => st.fall = ({ Zones := [] } : fall.F).SetZonesFromArgs h.Normalize d.2)
    ?_ ?_ ?_ hrun
  · simp [lastDirective, ParseState.init]
  · intro st st1 t seen ds hI hok
    simp only [(parseArg_settings hok).2.2]
    exact hI
  · intro st st1 d seen ds hshape hI hok
    simp only [lastDirective_snoc]
    rcases parseDirective_ok hshape hok with ⟨v, hd, hst⟩ | ⟨v, hd, hst⟩ | ⟨v, hd, hst⟩ |
      ⟨v, hd, hst⟩ | ⟨v, e, hd, hres, hst⟩ | ⟨hd, hst⟩
    · subst hd hst
      simpa [ParseState.setValue] using hI
    · subst hd hst
      simpa [ParseState.setValue] using hI
    · subst hd hst
      simpa [ParseState.setValue] using hI
    · subst hd hst
      simpa [ParseState.setValue] using hI
    · subst hd hst
      simpa [ParseState.setValue] using hI
    · subst hst
      simp [hd, fall.F.SetZonesFromArgs, fall.F.SetZones]

/-- C17: after a successful `parse` the policy is the zero policy when the input has no
`fallthrough` directive, and otherwise the policy built from exactly the arguments on the
line of the last `fallthrough` directive; no positional token and no other directive
changes it. -/
theorem C17_fallthrough_policy (h : Collab) (c : List Stanza)
    (hok : (parse h c).err = none) :
    match lastDirective ["fallthrough"] (allDirectives c) with
    | none => (parse h c).fall = { Zones := [] }
    | some d =>
      (parse h c).fall = ({ Zones := [] } : fall.F).SetZonesFromArgs h.Normalize d.2 := by
  obtain ⟨st, hrun⟩ := run_ok_of_parse hok
  rw [parse_of_run_ok hrun]
  exact run_fall hrun

/-- C17 at two concrete configurations: one without `fallthrough`, and one with two
`fallthrough` directives followed by other directives and another stanza. -/
theorem C17_fallthrough_policy_witness :
    ((parse demo [⟨["rg1:example.com:public"], [["tenant", "ten1"]]⟩]).err = none ∧
      (parse demo [⟨["rg1:example.com:public"], [["tenant", "ten1"]]⟩]).fall
        = { Zones := [] }) ∧
    ((parse demo [⟨["rg1:example.com:public"],
        [["fallthrough", "a.org"], ["fallthrough", "example.com", "b.org"],
          ["secret", "s3cr3t"]]⟩, ⟨["rg2:c.org:private"], [["client", "cli1"]]⟩]).err = none ∧
      (parse demo [⟨["rg1:example.com:public"],
        [["fallthrough", "a.org"], ["fallthrough", "example.com", "b.org"],
          ["secret", "s3cr3t"]]⟩, ⟨["rg2:c.org:private"], [["client", "cli1"]]⟩]).fall
        = ({ Zones := [] } : fall.F).SetZonesFromArgs demo.Normalize ["example.com", "b.org"]) :=
  ⟨⟨by decide,
    C17_fallthrough_policy demo [⟨["rg1:example.com:public"], [["tenant", "ten1"]]⟩]
      (by decide)⟩,
   ⟨by decide,
    C17_fallthrough_policy demo [⟨["rg1:example.com:public"],
        [["fallthrough", "a.org"], ["fallthrough", "example.com", "b.org"],
          ["secret", "s3cr3t"]]⟩, ⟨["rg2:c.org:private"], [["client", "cli1"]]⟩]
      (by decide)⟩⟩

/-- C18: there are two valid claims with different (resource group, zone) pairs, each
accepted on its own, such that `parse` rejects the second after the first as a conflicting
zone: `ab:c:public` followed by `a:bc:public`, whose keys are both `abc`. -/
theorem C18_key_collision (h : Collab) :
    ∃ rg1 zone1 access1 rg2 zone2 access2 : String,
      ValidClaim rg1 zone1 access1 ∧ ValidClaim rg2 zone2 access2 ∧
      (rg1, zone1) ≠ (rg2, zone2) ∧ rg1 ++ zone1 = rg2 ++ zone2 ∧
      (parse h [⟨[triplet rg1 zone1 access1], []⟩]).err = none ∧
      (parse h [⟨[triplet rg2 zone2 access2], []⟩]).err = none ∧
      (parse h [⟨[triplet rg1 zone1 access1, triplet rg2 zone2 access2], []⟩]).err =
        some (.Errf "conflicting zone: %q" (triplet rg2 zone2 access2)) := by
  refine ⟨"ab", "c", "public", "a", "bc", "public", ?_, ?_, by decide, by decide,
    rfl, rfl, rfl⟩
  · unfold ValidClaim
    decide
  · unfold ValidClaim
    decide

/-- C19: `parse` returns without error exactly when the positional tokens of the input
are the tokens `rg:zone:access` of valid claims (no colon in `rg` and `zone`, both
non-empty, `access` equal to `public` or `private`) whose concatenations `rg ++ zone` are
pairwise distinct, and every directive of the blocks is valid: one of the five
single-argument keywords with its argument, the argument of `environment` being accepted
by the resolver, or `fallthrough`. Nothing else makes `parse` fail. -/
theorem C19_parse_succeeds_iff (h : Collab) (c : List Stanza) :
    (parse h c).err = none ↔
      (∃ claims : List Claim, allArgs c = claims.map Claim.token ∧
        (∀ cl ∈ claims, ValidClaim cl.1 cl.2.1 cl.2.2) ∧ (claims.map Claim.key).Nodup) ∧
      ∀ d ∈ allDirectives c, ValidDirective h d := by
  constructor
  · intro hok
    obtain ⟨st, hrun⟩ := run_ok_of_parse hok
    obtain ⟨claims, hargs, hv, hnodup, _⟩ := run_claims hrun
    exact ⟨⟨claims, hargs, hv, hnodup⟩, run_directives_all_valid hrun⟩
  · rintro ⟨⟨claims, hargs, hv, hnodup⟩, hdirs⟩
    obtain ⟨cfg, hcfg, hclaims⟩ := exists_claimStanzas c claims hargs
    subst hcfg hclaims
    exact (parse_valid_claims h cfg hv hnodup hdirs).1

end azure

namespace azure

/-! ## The first error is the result -/

theorem parseArgs_append_error {st : ParseState} {a : List String} (b : List String)
    {e : ParseState × ParseError} (herr : parseArgs st a = .error e) :
    parseArgs st (a ++ b) = .error e := by
  induction a generalizing st with
  | nil => simp [parseArgs] at herr
  | cons t rest ih =>
    simp only [parseArgs, List.cons_append] at herr ⊢
    cases hstep : parseArg st t with
    | error e1 =>
      simp only [hstep] at herr ⊢
      exact herr
    | ok st2 =>
      simp only [hstep] at herr ⊢
      exact ih herr

theorem parseBlock_append_error {h : Collab} {st : ParseState} {a : List (List String)}
    (b : List (List String)) {e : ParseState × ParseError}
    (herr : parseBlock h st a = .error e) : parseBlock h st (a ++ b) = .error e := by
  induction a generalizing st with
  | nil => simp [parseBlock] at herr
  | cons t rest ih =>
    simp only [parseBlock, List.cons_append] at herr ⊢
    cases hstep : parseLine h st t with
    | error e1 =>
      simp only [hstep] at herr ⊢
      exact herr
    | ok st2 =>
      simp only [hstep] at herr ⊢
      exact ih herr

theorem parseStanzas_append_error {h : Collab} {st : ParseState} {a : List Stanza}
    (b : List Stanza) {e : ParseState × ParseError}
    (herr : parseStanzas h st a = .error e) : parseStanzas h st (a ++ b) = .error e := by
  induction a generalizing st with
  | nil => simp [parseStanzas] at herr
  | cons t rest ih =>
    simp only [parseStanzas, List.cons_append] at herr ⊢
    cases hstep : parseStanza h st t with
    | error e1 =>
      simp only [hstep] at herr ⊢
      exact herr
    | ok st2 =>
      simp only [hstep] at herr ⊢
      exact ih herr

/-- An error other than a missing argument is not changed by more tokens on the line. -/
theorem parseLine_append_error (h : Collab) (st : ParseState) (line1 : List String) :
    ∀ (line2 : List String) (e : ParseState × ParseError),
      parseLine h st line1 = .error e → (∀ v, e.2 ≠ .ArgErr v) →
      parseLine h st (line1 ++ line2) = .error e := by
  induction st, line1 using parseLine.induct h with
  | case1 st =>
    intro line2 e herr _
    simp [parseLine] at herr
  | case2 st =>
    intro line2 e herr hne
    simp only [parseLine, if_true, Except.error.injEq] at herr
    exact absurd (herr ▸ rfl) (hne "subscription")
  | case3 st v more ih =>
    intro line2 e herr hne
    simp only [parseLine, List.cons_append, if_true] at herr ⊢
    exact ih line2 e herr hne
  | case4 st _ =>
    intro line2 e herr hne
    simp [parseLine] at herr
    exact absurd (herr ▸ rfl) (hne "tenant")
  | case5 st v more _ ih =>
    intro line2 e herr hne
    simp [parseLine] at herr ⊢
    exact ih line2 e herr hne
  | case6 st _ _ =>
    intro line2 e herr hne
    simp [parseLine] at herr
    exact absurd (herr ▸ rfl) (hne "client")
  | case7 st v more _ _ ih =>
    intro line2 e herr hne
    simp [parseLine] at herr ⊢
    exact ih line2 e herr hne
  | case8 st _ _ _ =>
    intro line2 e herr hne
    simp [parseLine] at herr
    exact absurd (herr ▸ rfl) (hne "secret")
  | case9 st v more _ _ _ ih =>
    intro line2 e herr hne
    simp [parseLine] at herr ⊢
    exact ih line2 e herr hne
  | case10 st _ _ _ _ =>
    intro line2 e herr hne
    simp [parseLine] at herr
    exact absurd (herr ▸ rfl) (hne "environment")
  | case11 st v more msg hres _ _ _ _ =>
    intro line2 e herr _
    simp [parseLine, hres] at herr ⊢
    exact herr
  | case12 st v more e1 hres _ _ _ _ ih =>
    intro line2 e herr hne
    simp [parseLine, hres] at herr ⊢
    exact ih line2 e herr hne
  | case13 st rest _ _ _ _ _ =>
    intro line2 e herr _
    cases rest <;> simp [parseLine] at herr
  | case14 st arg rest h1 h2 h3 h4 h5 h6 =>
    intro line2 e herr _
    have h7 : parseLine h st (arg :: rest) = .error (st, .Errf "unknown property: %q" arg) :=
      parseLine_unknown h st rest (by simp [singleArg, h1, h2, h3, h4, h5]) h6
    rw [h7] at herr
    rw [← herr]
    exact parseLine_unknown h st (rest ++ line2) (by simp [singleArg, h1, h2, h3, h4, h5]) h6

theorem parse_congr {h : Collab} {c c1 : List Stanza} (hrun : run h c = run h c1) :
    parse h c = parse h c1 := by
  unfold parse
  rw [hrun]

theorem run_error_of_parse {h : Collab} {c : List Stanza} (herr : (parse h c).err ≠ none) :
    ∃ e, run h c = .error e := by
  unfold parse at herr
  cases hrun : run h c with
  | error e => exact ⟨e, rfl⟩
  | ok st => simp [hrun] at herr

/-- An error met before the end of the positional tokens is the result of the run. -/
theorem run_stable_args {h : Collab} {pre : List Stanza} {args1 : List String}
    {e : ParseState × ParseError} (herr : run h (pre ++ [⟨args1, []⟩]) = .error e)
    (args2 : List String) (block : List (List String)) (post : List Stanza) :
    run h (pre ++ ⟨args1 ++ args2, block⟩ :: post) = .error e := by
  unfold run at herr ⊢
  cases h0 : parseStanzas h ParseState.init pre with
  | error e0 =>
    rw [parseStanzas_append_error _ h0] at herr ⊢
    exact herr
  | ok st0 =>
    rw [parseStanzas_append_ok _ h0] at herr ⊢
    simp only [parseStanzas, parseStanza] at herr ⊢
    cases h1 : parseArgs st0 args1 with
    | error e1 =>
      simp only [h1] at herr
      simp only [parseArgs_append_error _ h1]
      exact herr
    | ok st1 => simp [h1, parseBlock] at herr

/-- An error met before the end of a block is the result of the run. -/
theorem run_stable_block {h : Collab} {pre : List Stanza} {args : List String}
    {block1 : List (List String)} {e : ParseState × ParseError}
    (herr : run h (pre ++ [⟨args, block1⟩]) = .error e)
    (block2 : List (List String)) (post : List Stanza) :
    run h (pre ++ ⟨args, block1 ++ block2⟩ :: post) = .error e := by
  unfold run at herr ⊢
  cases h0 : parseStanzas h ParseState.init pre with
  | error e0 =>
    rw [parseStanzas_append_error _ h0] at herr ⊢
    exact herr
  | ok st0 =>
    rw [parseStanzas_append_ok _ h0] at herr ⊢
    simp only [parseStanzas, parseStanza] at herr ⊢
    cases h1 : parseArgs st0 args with
    | error e1 =>
      simp only [h1] at herr ⊢
      exact herr
    | ok st1 =>
      simp only [h1] at herr ⊢
      cases h2 : parseBlock h st1 block1 with
      | error e2 =>
        simp only [h2] at herr
        simp only [parseBlock_append_error _ h2]
        exact herr
      | ok st2 => simp [h2] at herr

/-- An error other than a missing argument, met before the end of a line, is the result
of the run. -/
theorem run_stable_line {h : Collab} {pre : List Stanza} {args : List String}
    {block1 : List (List String)} {line1 : List String} {e : ParseState × ParseError}
    (herr : run h (pre ++ [⟨args, block1 ++ [line1]⟩]) = .error e)
    (hne : ∀ v, e.2 ≠ .ArgErr v)
    (line2 : List String) (block2 : List (List String)) (post : List Stanza) :
    run h (pre ++ ⟨args, block1 ++ (line1 ++ line2) :: block2⟩ :: post) = .error e := by
  unfold run at herr ⊢
  cases h0 : parseStanzas h ParseState.init pre with
  | error e0 =>
    rw [parseStanzas_append_error _ h0] at herr ⊢
    exact herr
  | ok st0 =>
    rw [parseStanzas_append_ok _ h0] at herr ⊢
    simp only [parseStanzas, parseStanza] at herr ⊢
    cases h1 : parseArgs st0 args with
    | error e1 =>
      simp only [h1] at herr ⊢
      exact herr
    | ok st1 =>
      simp only [h1] at herr ⊢
      cases h2 : parseBlock h st1 block1 with
      | error e2 =>
        rw [parseBlock_append_error _ h2] at herr ⊢
        exact herr
      | ok st2 =>
        rw [parseBlock_append_ok _ h2] at herr ⊢
        simp only [parseBlock] at herr ⊢
        cases h3 : parseLine h st2 line1 with
        | error e3 =>
          simp only [h3] at herr
          injection herr with he
          subst he
          simp only [parseLine_append_error h st2 line1 line2 e3 h3 hne]
        | ok st3 => simp [h3] at herr

end azure

namespace azure

/-! ## The first violating item -/

theorem claimError_of_split {seen : List String} {t rg zone access : String}
    (hsplit : strings.SplitN t ':' 3 = [rg, zone, access]) :
    claimError seen t =
      if rg = "" ∨ zone = "" ∨ (access ≠ "public" ∧ access ≠ "private") then
        some (.Errf "invalid resource group/zone/access: %q" t)
      else if rg ++ zone ∈ seen.map tokenKey then some (.Errf "conflicting zone: %q" t)
      else none := by
  simp only [claimError, hsplit]

theorem claimError_malformed (seen : List String) {t : String}
    (hparts : ∀ a b c, strings.SplitN t ':' 3 ≠ [a, b, c]) :
    claimError seen t = some (.Errf "invalid resource group/zone: %q" t) := by
  unfold claimError
  split
  · rename_i a b c hsplit
    exact absurd hsplit (hparts a b c)
  · rfl

/-- The loop over the positional tokens raises the violation of a token, and accepts a
token without violation. -/
theorem parseArg_claimError (st : ParseState) (seen : List String) (t : String)
    (hrel : ∀ k, (st.resourceGroupSet.get? k).isSome ↔ k ∈ seen.map tokenKey) :
    (∀ e, claimError seen t = some e → parseArg st t = .error (st, e)) ∧
    (claimError seen t = none → ∃ st1, parseArg st t = .ok st1 ∧
      ∀ k, (st1.resourceGroupSet.get? k).isSome ↔ k ∈ (seen ++ [t]).map tokenKey) := by
  by_cases hs : ∃ a b c, strings.SplitN t ':' 3 = [a, b, c]
  · obtain ⟨rg, zone, access, hs⟩ := hs
    have hkey : tokenKey t = rg ++ zone := by simp only [tokenKey, hs]
    rw [claimError_of_split hs, parseArg_of_split hs]
    by_cases hbad : rg = "" ∨ zone = "" ∨ (access ≠ "public" ∧ access ≠ "private")
    · rw [if_pos hbad, if_pos hbad]
      refine ⟨?_, ?_⟩
      · intro e he
        injection he with he
        rw [he]
      · intro he
        cases he
    · rw [if_neg hbad, if_neg hbad]
      by_cases hk : rg ++ zone ∈ seen.map tokenKey
      · rw [if_pos hk, if_pos ((hrel _).mpr hk)]
        refine ⟨?_, ?_⟩
        · intro e he
          injection he with he
          rw [he]
        · intro he
          cases he
      · have hnot : ¬ (st.resourceGroupSet.get? (rg ++ zone)).isSome = true :=
          fun hsome => hk ((hrel _).mp hsome)
        rw [if_neg hk, if_neg hnot]
        refine ⟨?_, ?_⟩
        · intro e he
          cases he
        · intro _
          refine ⟨st.claim rg zone access, rfl, ?_⟩
          intro k
          simp only [ParseState.claim, List.map_append, List.map_cons, List.map_nil,
            List.mem_append, List.mem_singleton, hkey]
          by_cases hkk : rg ++ zone = k
          · subst hkk
            simp [GoMap.get?_set_self]
          · rw [GoMap.get?_set_ne _ _ _ _ hkk, hrel k]
            have : ¬ k = rg ++ zone := fun e => hkk e.symm
            simp [this]
  · have hparts : ∀ a b c, strings.SplitN t ':' 3 ≠ [a, b, c] :=
      fun a b c hsplit => hs ⟨a, b, c, hsplit⟩
    rw [claimError_malformed seen hparts, parseArg_malformed st hparts]
    refine ⟨?_, ?_⟩
    · intro e he
      injection he with he
      rw [he]
    · intro he
      cases he

/-- The loop over a block raises the violation of a directive, and runs a directive
without violation, which leaves the uniqueness set untouched. -/
theorem parseDirective_directiveError (h : Collab) (st : ParseState) (d : Directive)
    (hshape : d.1 ∈ singleArg → d.2.length ≤ 1) :
    (∀ e, directiveError h d = some e → ∃ st1, parseLine h st (d.1 :: d.2) = .error (st1, e)) ∧
    (directiveError h d = none → ∃ st1, parseLine h st (d.1 :: d.2) = .ok st1 ∧
      st1.resourceGroupSet = st.resourceGroupSet) := by
  obtain ⟨kw, args⟩ := d
  simp only at hshape ⊢
  have hok : ValidDirective h (kw, args) → ∃ st1, parseLine h st (kw :: args) = .ok st1 ∧
      st1.resourceGroupSet = st.resourceGroupSet := by
    intro hvalid
    obtain ⟨st1, h1, h2, _⟩ := parseDirective_valid hvalid st
    exact ⟨st1, h1, h2⟩
  by_cases hkw : kw ∈ singleArg
  · match args, hshape hkw with
    | [], _ =>
      have hde : directiveError h (kw, []) = some (.ArgErr kw) := by
        simp [directiveError, hkw]
      rw [hde]
      refine ⟨?_, ?_⟩
      · intro e he
        injection he with he
        exact ⟨st, by rw [← he]; exact parseLine_missing h st hkw⟩
      · intro he
        cases he
    | [v], _ =>
      by_cases henv : kw = "environment"
      · subst henv
        cases hres : h.EnvironmentFromName v with
        | error msg =>
          have hde : directiveError h ("environment", [v]) =
              some (.Errf "cannot set azure environment: %q" msg) := by
            simp [directiveError, singleArg, hres]
          rw [hde]
          refine ⟨?_, ?_⟩
          · intro e he
            injection he with he
            exact ⟨st.setValue auth.ClientSecret v, by rw [← he]; simp [parseLine, hres]⟩
          · intro he
            cases he
        | ok env =>
          have hde : directiveError h ("environment", [v]) = none := by
            simp [directiveError, singleArg, hres]
          rw [hde]
          refine ⟨?_, ?_⟩
          · intro e he
            cases he
          · intro _
            exact hok (Or.inl ⟨hkw, v, rfl, fun _ => ⟨env, hres⟩⟩)
      · have hde : directiveError h (kw, [v]) = none := by
          simp [directiveError, hkw, henv]
        rw [hde]
        refine ⟨?_, ?_⟩
        · intro e he
          cases he
        · intro _
          exact hok (Or.inl ⟨hkw, v, rfl, fun e => absurd e henv⟩)
    | _ :: _ :: _, hlen => simp at hlen
  · by_cases hfall : kw = "fallthrough"
    · have hde : directiveError h (kw, args) = none := by
        subst hfall
        simp [directiveError, singleArg]
      rw [hde]
      refine ⟨?_, ?_⟩
      · intro e he
        cases he
      · intro _
        exact hok (Or.inr hfall)
    · have hde : directiveError h (kw, args) = some (.Errf "unknown property: %q" kw) := by
        simp [directiveError, hkw, hfall]
      rw [hde]
      refine ⟨?_, ?_⟩
      · intro e he
        injection he with he
        exact ⟨st, by rw [← he]; exact parseLine_unknown h st args hkw hfall⟩
      · intro he
        cases he

theorem firstError_append (h : Collab) (a b : List Item) :
    ∀ seen, firstError h seen (a ++ b) =
      match firstError h seen a with
      | some e => some e
      | none => firstError h (seen ++ claimsIn a) b := by
  induction a with
  | nil =>
    intro seen
    simp [firstError, claimsIn]
  | cons x rest ih =>
    intro seen
    cases x with
    | claim t =>
      simp only [List.cons_append, firstError, claimsIn]
      cases claimError seen t with
      | some e => rfl
      | none =>
        have h1 := ih (seen ++ [t])
        simp only [List.append_assoc, List.singleton_append] at h1
        exact h1
    | directive d =>
      simp only [List.cons_append, firstError, claimsIn]
      cases directiveError h d with
      | some e => rfl
      | none => exact ih seen

theorem claimsIn_claims (args : List String) : claimsIn (args.map Item.claim) = args := by
  induction args with
  | nil => rfl
  | cons t rest ih => simp [claimsIn, ih]

theorem claimsIn_directives (ds : List Directive) :
    claimsIn (ds.map Item.directive) = [] := by
  induction ds with
  | nil => rfl
  | cons d rest ih => simp [claimsIn, ih]

theorem errOf_some {r : Step} {e : ParseError} (herr : errOf r = some e) :
    ∃ st, r = .error (st, e) := by
  cases r with
  | error p =>
    obtain ⟨st, e1⟩ := p
    simp only [errOf, Option.some.injEq] at herr
    exact ⟨st, by rw [herr]⟩
  | ok st => simp [errOf] at herr

/-- The loop over the positional tokens returns the error of the first violating one. -/
theorem parseArgs_firstError (h : Collab) (args : List String) :
    ∀ (st : ParseState) (seen : List String),
      (∀ k, (st.resourceGroupSet.get? k).isSome ↔ k ∈ seen.map tokenKey) →
      errOf (parseArgs st args) = firstError h seen (args.map Item.claim) ∧
      ∀ st1, parseArgs st args = .ok st1 →
        ∀ k, (st1.resourceGroupSet.get? k).isSome ↔ k ∈ (seen ++ args).map tokenKey := by
  induction args with
  | nil =>
    intro st seen hrel
    refine ⟨rfl, ?_⟩
    intro st1 hok
    simp only [parseArgs] at hok
    injection hok with hst
    subst hst
    simpa using hrel
  | cons t rest ih =>
    intro st seen hrel
    obtain ⟨herr, hacc⟩ := parseArg_claimError st seen t hrel
    simp only [parseArgs, List.map_cons, firstError]
    cases hce : claimError seen t with
    | some e =>
      rw [herr e hce]
      exact ⟨rfl, fun st1 hok => by cases hok⟩
    | none =>
      obtain ⟨st1, hstep, hrel1⟩ := hacc hce
      rw [hstep]
      simp only
      have := ih st1 (seen ++ [t]) hrel1
      simpa using this

/-- The loop over the directives returns the error of the first violating one. -/
theorem parseDirectives_firstError (h : Collab) (ds : List Directive) :
    ∀ (st : ParseState) (seen : List String),
      (∀ d ∈ ds, d.1 ∈ singleArg → d.2.length ≤ 1) →
      errOf (parseDirectives h st ds) = firstError h seen (ds.map Item.directive) ∧
      ∀ st1, parseDirectives h st ds = .ok st1 →
        st1.resourceGroupSet = st.resourceGroupSet := by
  induction ds with
  | nil =>
    intro st seen _
    refine ⟨rfl, ?_⟩
    intro st1 hok
    simp only [parseDirectives] at hok
    injection hok with hst
    rw [hst]
  | cons d rest ih =>
    intro st seen hshape
    obtain ⟨herr, hacc⟩ := parseDirective_directiveError h st d (hshape d (by simp))
    simp only [parseDirectives, List.map_cons, firstError]
    cases hde : directiveError h d with
    | some e =>
      obtain ⟨st1, hstep⟩ := herr e hde
      rw [hstep]
      exact ⟨rfl, fun st1 hok => by cases hok⟩
    | none =>
      obtain ⟨st1, hstep, hset⟩ := hacc hde
      rw [hstep]
      simp only
      obtain ⟨h1, h2⟩ := ih st1 seen (fun x hx => hshape x (by simp [hx]))
      exact ⟨h1, fun st2 hok => (h2 st2 hok).trans hset⟩

theorem flatMap_lineDirectives_shape (block : List (List String)) :
    ∀ d ∈ block.flatMap lineDirectives, d.1 ∈ singleArg → d.2.length ≤ 1 := by
  intro d hd
  simp only [List.mem_flatMap] at hd
  obtain ⟨line, _, hline⟩ := hd
  exact lineDirectives_shape line d hline

/-- The loop over the stanzas returns the error of the first violating item. -/
theorem parseStanzas_firstError (h : Collab) (c : List Stanza) :
    ∀ (st : ParseState) (seen : List String),
      (∀ k, (st.resourceGroupSet.get? k).isSome ↔ k ∈ seen.map tokenKey) →
      errOf (parseStanzas h st c) = firstError h seen (items c) ∧
      ∀ st1, parseStanzas h st c = .ok st1 →
        ∀ k, (st1.resourceGroupSet.get? k).isSome ↔ k ∈ (seen ++ allArgs c).map tokenKey := by
  induction c with
  | nil =>
    intro st seen hrel
    refine ⟨rfl, ?_⟩
    intro st1 hok
    simp only [parseStanzas] at hok
    injection hok with hst
    subst hst
    simpa [allArgs] using hrel
  | cons s rest ih =>
    intro st seen hrel
    obtain ⟨hA, hrelA⟩ := parseArgs_firstError h s.args st seen hrel
    have hitems : items (s :: rest) =
        s.args.map Item.claim ++
          ((s.block.flatMap lineDirectives).map Item.directive ++ items rest) := by
      simp [items, stanzaItems]
    rw [hitems, firstError_append, ← hA]
    simp only [parseStanzas, parseStanza, allArgs, List.flatMap_cons]
    cases hargs : parseArgs st s.args with
    | error e =>
      obtain ⟨st1, e1⟩ := e
      exact ⟨rfl, fun st1 hok => by cases hok⟩
    | ok st1 =>
      have hrel1 := hrelA st1 hargs
      obtain ⟨hB, hsetB⟩ := parseDirectives_firstError h (s.block.flatMap lineDirectives)
        st1 (seen ++ s.args) (flatMap_lineDirectives_shape s.block)
      simp only [errOf, claimsIn_claims]
      rw [firstError_append, ← hB, parseBlock_eq_directives]
      cases hblock : parseDirectives h st1 (s.block.flatMap lineDirectives) with
      | error e =>
        obtain ⟨st2, e2⟩ := e
        exact ⟨rfl, fun st1 hok => by cases hok⟩
      | ok st2 =>
        have hrel2 : ∀ k, (st2.resourceGroupSet.get? k).isSome ↔
            k ∈ (seen ++ s.args).map tokenKey := by
          intro k
          rw [hsetB st2 hblock]
          exact hrel1 k
        simp only [errOf, claimsIn_directives, List.append_nil]
        have := ih st2 (seen ++ s.args) hrel2
        simpa [allArgs, List.append_assoc] using this

theorem parse_err (h : Collab) (c : List Stanza) : (parse h c).err = errOf (run h c) := by
  unfold parse
  cases run h c with
  | error e =>
    obtain ⟨st, e1⟩ := e
    rfl
  | ok st => rfl

/-- C13: the error `parse` returns is the error of the first violating item of the input,
the items being read stanza by stanza and, within a stanza, the positional tokens before
the directives of the block (none when no item violates). So after an error-free beginning
a violating positional token has its own error returned whatever tokens, block and stanzas
follow, a block line has the error of its first violating directive returned whatever
lines and stanzas follow, and a configuration that fails returns the same result whatever
stanzas are added after it. -/
theorem C13_first_error_returned (h : Collab) :
    (∀ c, (parse h c).err = firstError h [] (items c)) ∧
    (∀ pre args1 t args2 block post e,
      (parse h (pre ++ [⟨args1, []⟩])).err = none →
      claimError (allArgs (pre ++ [⟨args1, []⟩])) t = some e →
      (parse h (pre ++ ⟨args1 ++ t :: args2, block⟩ :: post)).err = some e) ∧
    (∀ pre args block1 line block2 post e,
      (parse h (pre ++ [⟨args, block1⟩])).err = none →
      firstError h [] ((lineDirectives line).map Item.directive) = some e →
      (parse h (pre ++ ⟨args, block1 ++ line :: block2⟩ :: post)).err = some e) ∧
    (∀ pre post, (parse h pre).err ≠ none → parse h (pre ++ post) = parse h pre) := by
  have hinit : ∀ k, ((ParseState.init).resourceGroupSet.get? k).isSome ↔
      k ∈ ([] : List String).map tokenKey := by
    intro k
    simp [ParseState.init, GoMap.get?]
  refine ⟨?_, ?_, ?_, ?_⟩
  · intro c
    rw [parse_err]
    exact (parseStanzas_firstError h c ParseState.init [] hinit).1
  · intro pre args1 t args2 block post e hacc hce
    obtain ⟨st, hrun⟩ := run_ok_of_parse hacc
    have hrel := (parseStanzas_firstError h _ ParseState.init [] hinit).2 st hrun
    simp only [List.nil_append] at hrel
    have herr := (parseArg_claimError st _ t hrel).1 e hce
    rw [parse_of_run_error (run_arg_error hrun herr args2 block post)]
  · intro pre args block1 line block2 post e hacc hfirst
    obtain ⟨st, hrun⟩ := run_ok_of_parse hacc
    have hline := (parseDirectives_firstError h (lineDirectives line) st []
      (lineDirectives_shape line)).1
    rw [hfirst, ← parseLine_eq_directives] at hline
    obtain ⟨st1, herr⟩ := errOf_some hline
    rw [parse_of_run_error (run_line_error hrun herr block2 post)]
  · intro pre post herr
    obtain ⟨e, he⟩ := run_error_of_parse herr
    have hfull : run h (pre ++ post) = .error e := parseStanzas_append_error _ he
    exact parse_congr (hfull.trans he.symm)

/-- C13 at concrete configurations. In the first, the stanza holds the malformed token
`rg:zone` and the unknown directive `bogus`, and the next stanza an invalid claim: the error
is the one of `rg:zone`. In the second, the block holds the unknown directive `bogus` and
the next stanza a malformed token: the error is the one of `bogus`. -/
theorem C13_first_error_returned_witness :
    ((parse demo ([] ++ [⟨["rg1:example.com:public"], []⟩])).err = none ∧
      claimError (allArgs ([] ++ [⟨["rg1:example.com:public"], []⟩])) "rg:zone" =
        some (.Errf "invalid resource group/zone: %q" "rg:zone") ∧
      (parse demo ([] ++ ⟨["rg1:example.com:public"] ++ "rg:zone" :: ["rg2:b.org:internal"],
          [["bogus"]]⟩ :: [⟨[":z:public"], [["tenant"]]⟩])).err =
        some (.Errf "invalid resource group/zone: %q" "rg:zone")) ∧
    ((parse demo ([] ++ [⟨["rg1:example.com:public"], [["tenant", "ten1"]]⟩])).err = none ∧
      firstError demo [] ((lineDirectives ["client", "cli1", "bogus", "secret"]).map
        Item.directive) = some (.Errf "unknown property: %q" "bogus") ∧
      (parse demo ([] ++ ⟨["rg1:example.com:public"],
          [["tenant", "ten1"]] ++ ["client", "cli1", "bogus", "secret"] :: [["subscription"]]⟩ ::
            [⟨["rg:zone"], []⟩])).err =
        some (.Errf "unknown property: %q" "bogus")) :=
  ⟨⟨by decide, by decide,
    (C13_first_error_returned demo).2.1 [] ["rg1:example.com:public"] "rg:zone"
      ["rg2:b.org:internal"] [["bogus"]] [⟨[":z:public"], [["tenant"]]⟩] _
      (by decide) (by decide)⟩,
   ⟨by decide, by decide,
    (C13_first_error_returned demo).2.2.1 [] ["rg1:example.com:public"] [["tenant", "ten1"]]
      ["client", "cli1", "bogus", "secret"] [["subscription"]] [⟨["rg:zone"], []⟩] _
      (by decide) (by decide)⟩⟩

end azure
